import Mathlib

/-
  Verification development for the apm transaction planner
  (src/internal/common/binding/apt/lib/): requirement parsing, install /
  remove / reinstall marking, conflict checking, dependency preseeding,
  resolution finalization, change collection, and the unified planner
  plan_change_internal with its simulate / apply distinction.

  The embedding models the planner's own logic directly from the C++
  source.  The libapt collaborators (package database, dependency-state
  engine, problem resolver, version comparator) are external to the
  repository; they enter the model as explicit parameters (the Ext
  structure) or as contract-level state setters (mark state is an
  association list mutated by MarkInstall / MarkDelete / SetReInstall,
  snapshotted and restored wholesale, matching pkgDepCache's State).
  Strings are modelled as lists of characters.
-/

namespace Apm

/-- Characters the requirement parser treats as comparison-operator
material: the six operators are built from these. -/
def isOpChar (c : Char) : Bool := c = '<' || c = '>' || c = '=' || c = '!'

/-- C `isspace` for the ASCII range, as used by parse_requirement's
whitespace trimming. -/
def isCSpace (c : Char) : Bool :=
  c = ' ' || c = '\t' || c = '\n' || c = '\x0b' || c = '\x0c' || c = '\r'

/-- Package and version names: std::string modelled as a character list. -/
abbrev Name := List Char

/-- Does the pattern occur at the head of the list (std::string prefix test)? -/
def startsWith : Name → Name → Bool
  | _, [] => true
  | [], _ :: _ => false
  | c :: s, p :: ps => c = p && startsWith s ps

/-- Position of the first occurrence of `pat` in `s`: std::string::find,
with `none` playing the role of npos. -/
def strFind : Name → Name → Option Nat
  | s, pat =>
    match s with
    | [] => if pat.isEmpty then some 0 else none
    | _ :: t => if startsWith s pat then some 0 else (strFind t pat).map (· + 1)

/-- Drop trailing characters satisfying the predicate (the parser's
pop_back loop over trailing whitespace). -/
def dropTrail (p : Char → Bool) (s : Name) : Name :=
  (s.reverse.dropWhile p).reverse

/-- Leading- and trailing-whitespace trim applied to the version part. -/
def trimVer (s : Name) : Name := dropTrail isCSpace (s.dropWhile isCSpace)

/-- apt dependency comparison-operator codes (pkgCache::Dep): LessEq 1,
GreaterEq 2, Less 3, Greater 4, Equals 5, NotEquals 6; 0 when absent. -/
def opLessEq : Nat := 1
def opGreaterEq : Nat := 2
def opLess : Nat := 3
def opGreater : Nat := 4
def opEquals : Nat := 5
def opNotEquals : Nat := 6

/-- RequirementSpec of apt_package_operations.h: parsed requirement. -/
structure RequirementSpec where
  name : Name
  has_version : Bool := false
  op : Nat := 0
  version : Name := []
deriving Repr, DecidableEq

/-- parse_requirement (apt_package_operations.cpp:11): scans for the
operators in priority order <=, >=, !=, =, <, >, splits the string at the
first match of the winning operator, and trims whitespace around the
version part. -/
def parse_requirement (raw : Name) : RequirementSpec :=
  let found : Option (Nat × Nat) :=
    match strFind raw ['<', '='] with
    | some p => some (p, opLessEq)
    | none =>
      match strFind raw ['>', '='] with
      | some p => some (p, opGreaterEq)
      | none =>
        match strFind raw ['!', '='] with
        | some p => some (p, opNotEquals)
        | none =>
          match strFind raw ['='] with
          | some p => some (p, opEquals)
          | none =>
            match strFind raw ['<'] with
            | some p => some (p, opLess)
            | none =>
              match strFind raw ['>'] with
              | some p => some (p, opGreater)
              | none => none
  match found with
  | none => { name := raw }
  | some (pos, op) =>
    let width : Nat :=
      if op = opLessEq || op = opGreaterEq || op = opNotEquals then 2 else 1
    let version := trimVer (raw.drop (pos + width))
    { name := raw.take pos
      op := op
      version := version
      has_version := !version.isEmpty }

end Apm

namespace Apm

/-- Characters of one of the six operators, for stating parser theorems. -/
def opChars (op : Nat) : Name :=
  if op = opLessEq then ['<', '=']
  else if op = opGreaterEq then ['>', '=']
  else if op = opNotEquals then ['!', '=']
  else if op = opEquals then ['=']
  else if op = opLess then ['<']
  else ['>']

end Apm

namespace Apm

/-- Dependency edge types of pkgCache::Dep used by the planner. -/
inductive DepType where
  | depends
  | preDepends
  | suggests
  | conflicts
  | obsoletes
  | other
deriving Repr, DecidableEq

/-- DepIterator::IsCritical of libapt: Conflicts, Obsoletes, Depends and
PreDepends are the critical edge types. -/
def isCritical : DepType → Bool
  | .conflicts => true
  | .obsoletes => true
  | .depends => true
  | .preDepends => true
  | _ => false

/-- One alternative inside a dependency group: target package name with
an optional version constraint (comparison-operator code and version). -/
structure DepAlt where
  target : Name
  compOp : Nat := 0
  targetVer : Option Name := none
deriving Repr, DecidableEq

/-- An OR-group of dependency alternatives, as walked by GlobOr. -/
structure DepGroup where
  dtype : DepType
  alts : List DepAlt
deriving Repr, DecidableEq

/-- A provides entry of a version: provided name and optional provided
version string (ProvideVersion may be null). -/
structure Provide where
  name : Name
  version : Option Name := none
deriving Repr, DecidableEq

/-- A concrete package version: version string, archive size,
installed size, downloadability, provides and dependency lists. -/
structure Ver where
  verStr : Name
  size : Nat := 0
  instSize : Nat := 0
  downloadable : Bool := true
  provides : List Provide := []
  depends : List DepGroup := []
deriving Repr, DecidableEq

/-- A package record of the database: identity, essential flag, the
currently installed version and the policy-selected candidate version.
The planner only ever inspects a package's current and candidate
versions, so the model carries exactly those. -/
structure Pkg where
  name : Name
  essential : Bool := false
  current : Option Ver := none
  candidate : Option Ver := none
deriving Repr, DecidableEq

/-- The package database: the planner's linear scans iterate it in
order (PkgBegin .. end). -/
abbrev Db := List Pkg

/-- pkgDepCache::FindPkg: exact-name lookup. -/
def findPkg (db : Db) (n : Name) : Option Pkg := db.find? (fun p => p.name = n)

/-- The version objects of a package visible to the model (current and
candidate). -/
def pkgVers (q : Pkg) : List Ver :=
  match q.current, q.candidate with
  | some c, some cd => if c = cd then [c] else [c, cd]
  | some c, none => [c]
  | none, some cd => [cd]
  | none, none => []

/-- Mark mode of a package (pkgDepCache StateCache Mode): keep, install
or delete (with purge flag). -/
inductive Mode where
  | keep
  | install
  | delete (purge : Bool)
deriving Repr, DecidableEq

/-- Per-package mutable planner state: mode, the auto-installed flag and
the ReInstall flag (iFlags). -/
structure PState where
  mode : Mode := .keep
  auto : Bool := false
  reinstall : Bool := false
deriving Repr, DecidableEq

/-- The mark-state table: an association list over package names.
Packages without an entry are in the default Keep state. -/
abbrev Marks := List (Name × PState)

def getMark (m : Marks) (n : Name) : PState :=
  ((m.find? (fun e => e.1 = n)).map (fun e => e.2)).getD {}

def setMark (m : Marks) (n : Name) (f : PState → PState) : Marks :=
  match m with
  | [] => [(n, f {})]
  | (k, v) :: t => if k = n then (k, f v) :: t else (k, v) :: setMark t n f

def isInstallMode : Mode → Bool
  | .install => true
  | _ => false

def isDeleteMode : Mode → Bool
  | .delete _ => true
  | _ => false

/-- pkgDepCache::AutoMarkFlag of the MarkInstall calls. -/
inductive AutoMark where
  | manual
  | auto
  | dontChange
deriving Repr, DecidableEq

def applyAuto (am : AutoMark) (prev : PState) : Bool :=
  match am with
  | .manual => false
  | .auto => true
  | .dontChange => prev.auto

/-- Contract-level MarkInstall: sets the package's mode to install and
updates the auto flag per the AutoMarkFlag (the database collaborator's
set-mark operation of spec section 6). -/
def markInstall (m : Marks) (n : Name) (am : AutoMark) : Marks :=
  setMark m n (fun st => { st with mode := .install, auto := applyAuto am st })

/-- Contract-level MarkDelete with the purge flag. -/
def markDelete (m : Marks) (n : Name) (purge : Bool) : Marks :=
  setMark m n (fun st => { st with mode := .delete purge })

/-- Contract-level SetReInstall: sets the ReInstall iFlag, leaving the
mode untouched. -/
def setReInstall (m : Marks) (n : Name) (b : Bool) : Marks :=
  setMark m n (fun st => { st with reinstall := b })

/-- StateCache InstallVer, the version that will end up installed:
MarkInstall sets it to the candidate, MarkDelete to null, MarkKeep to
the current version. -/
def instVerOf (m : Marks) (p : Pkg) : Option Ver :=
  match (getMark m p.name).mode with
  | .delete _ => none
  | .install => p.candidate
  | .keep => p.current

/-- StateCache Status: 2 when not installed, 1 when the candidate
differs from the installed version, 0 otherwise. -/
def statusOf (p : Pkg) : Nat :=
  match p.current with
  | none => 2
  | some c => if p.candidate = some c then 0 else 1

/-- StateCache NewInstall: marked install and not installed. -/
def stNewInstall (m : Marks) (p : Pkg) : Bool :=
  isInstallMode (getMark m p.name).mode && statusOf p == 2

/-- StateCache Upgrade: marked install with Status above 0. -/
def stUpgrade (m : Marks) (p : Pkg) : Bool :=
  isInstallMode (getMark m p.name).mode && decide (0 < statusOf p)

/-- StateCache Delete: marked delete. -/
def stDelete (m : Marks) (p : Pkg) : Bool :=
  isDeleteMode (getMark m p.name).mode

/-- The observable mark state of the database: one PState per package,
in database order.  Used to state the simulate-purity claims. -/
def observeMarks (db : Db) (m : Marks) : List PState :=
  db.map (fun p => getMark m p.name)

/-- Order on names mirroring std::string comparison, for the sorted
std::set of requested names. -/
def ltName : Name → Name → Bool
  | [], [] => false
  | [], _ :: _ => true
  | _ :: _, [] => false
  | a :: as, b :: bs =>
    if a.toNat < b.toNat then true
    else if b.toNat < a.toNat then false
    else ltName as bs

/-- std::set::insert on a sorted, duplicate-free list of names. -/
def insertName (n : Name) : List Name → List Name
  | [] => [n]
  | x :: xs =>
    if n = x then x :: xs
    else if ltName n x then n :: x :: xs
    else x :: insertName n xs

/-- Flatten the dependency groups of a version into the flat DependsList
edge order. -/
def flatDeps (v : Ver) : List (DepType × DepAlt) :=
  v.depends.flatMap (fun g => g.alts.map (fun a => (g.dtype, a)))

/-- Wrapping uint64 addition. -/
def M64 : Nat := 2 ^ 64

def uadd (a b : Nat) : Nat := (a + b) % M64

/-- Wrapping uint64 subtraction (the minuend is kept below 2^64 by
construction). -/
def usub (a b : Nat) : Nat := (a + (M64 - b % M64)) % M64

/-- Result codes of AptErrorCode (apt_wrapper.h) used by the planner. -/
def ePackageNotFound : Nat := 21
def eDependencyBroken : Nat := 41
def eOperationIncomplete : Nat := 53
def eDownloadFailed : Nat := 57
def eInvalidParameters : Nat := 91

/-- Structured counterparts of the message strings built at each
make_result call site of the modeled planner functions; each constructor
carries exactly the data interpolated into the corresponding format
string. -/
inductive Msg where
  | packageNotFound (n : Name)
  | noInstallableProviders (n : Name)
  | virtualProvidedBy (n : Name) (entries : List (Name × Name × Bool))
  | notInstalledNotRemoved (n : Name)
  | multipleProviders (n : Name) (providers : List Name)
  | cannotRemoveEssential (n : Name)
  | conflictingPackages (a b : Name)
  | rpmNotFound (raw : Name)
  | notInstalledReinstall (n : Name)
  | reinstallNotDownloadable (n : Name) (v : Name)
  | brokenPackages (info : List (Name × Option (Name × Nat × Option Name)))
  | impossibleSituation
  | pendingAptErrors
deriving Repr, DecidableEq

/-- A typed failure: AptErrorCode plus the structured message. -/
structure AptError where
  code : Nat
  msg : Msg
deriving Repr, DecidableEq

/-- The change summary accumulated by collect_package_changes. -/
structure Changes where
  extra_installed : List Name := []
  extra_removed : List Name := []
  upgraded : List Name := []
  new_installed : List Name := []
  removed : List Name := []
  download_size : Nat := 0
  install_size : Nat := 0
deriving Repr, DecidableEq

/-- Result and final observable mark state of a planning call. -/
structure PlanOutput where
  result : Except AptError Changes
  marks : Marks

/-- Modelled from the spec: is_rpm_file is declared in apt_internal.h but
its definition is not under src/; sections 4.4 and 4.11 of the spec
describe it as recognizing a package-archive file-path argument, modelled
here as a ".rpm" suffix test. -/
def is_rpm_file (s : Name) : Bool := startsWith s.reverse ['m', 'p', 'r', '.']

/-- The external collaborators of spec section 6, as explicit parameters:
the version comparator (CheckDep), the problem resolver's scoring sort and
Resolve call, the dependency-state engine's derived predicates
(InstBroken, NowBroken, group and edge satisfaction), the auto-install
cascade performed by MarkInstall with AutoInst, configuration flags, and
the file-import path taken for package-archive arguments.  resolve
returns the mark state it produced, whether it fully succeeded, and
whether it left lower-layer pending errors behind. -/
structure Ext where
  vs : Name → Nat → Name → Bool := fun _ _ _ => true
  scoreSort : List Pkg → List Pkg := fun l => l
  instVirtual : Bool := false
  remDependsCfg : Bool := false
  instBroken : Db → Marks → Name → Bool := fun _ _ _ => false
  nowBroken : Db → Marks → Name → Bool := fun _ _ _ => false
  depGInstall : Db → Marks → DepGroup → Bool := fun _ _ _ => true
  depCVer : Db → Marks → DepAlt → Bool := fun _ _ _ => true
  depInstall : Db → Marks → DepAlt → Bool := fun _ _ _ => true
  smartTarget : Db → Name → Option Name := fun db n => (findPkg db n).map Pkg.name
  autoCascade : Db → Marks → Name → Marks := fun _ m _ => m
  resolve : Db → Marks → List Name → List Name → Bool → Marks × Bool × Bool :=
    fun _ m _ _ _ => (m, true, false)
  rpmLookup : Db → Name → Option Name := fun _ _ => none
  rpmPlan : Db → List Name → List Name → Bool → Bool → Bool → Marks → PlanOutput :=
    fun _ _ _ _ _ _ m => { result := .ok {}, marks := m }

/-- VS().CheckDep against a dependency edge: trivially true when the
edge carries no version constraint. -/
def checkDepV (E : Ext) (verStr : Name) (alt : DepAlt) : Bool :=
  match alt.targetVer with
  | none => true
  | some tv => E.vs verStr alt.compOp tv

/-- Does this version carry a provides entry for the requirement's name,
honoring the requirement's version constraint via the comparator
(entries with a null provide version never satisfy a constraint)? -/
def provHit (E : Ext) (req : RequirementSpec) (v : Ver) : Bool :=
  v.provides.any (fun pr =>
    decide (pr.name = req.name) &&
    (if req.has_version then
      match pr.version with
      | none => false
      | some pv => E.vs pv req.op req.version
    else true))

/-- find_install_package (apt_package_operations.cpp:40): direct lookup,
else a two-pass provider scan over every package's candidate and current
versions, resolved by the problem resolver's score sort. -/
def find_install_package (E : Ext) (db : Db) (req : RequirementSpec) :
    Except AptError Pkg :=
  match findPkg db req.name with
  | some p => .ok p
  | none =>
    let provider_pkgs := db.flatMap (fun q =>
      (match q.candidate with
       | some v => if provHit E req v then [q] else []
       | none => []) ++
      (match q.current with
       | some v => if provHit E req v then [q] else []
       | none => []))
    match provider_pkgs with
    | [] => .error ⟨ePackageNotFound, .packageNotFound req.name⟩
    | p :: ps => .ok ((E.scoreSort (p :: ps)).headD p)

/-- The provides entries naming `n`, with their owner package, owner
version and provide version (the ProvidesList of a virtual package
record). -/
def provEntries (db : Db) (n : Name) : List (Pkg × Ver × Option Name) :=
  db.flatMap (fun q => (pkgVers q).flatMap (fun v =>
    v.provides.filterMap (fun pr =>
      if pr.name = n then some (q, v, pr.version) else none)))

/-- The provider walk of resolve_virtual_package over the score-sorted
owner list: collects GoodSolutions, deduplicating by package, accepting
a provider outright when its installed version is the providing version,
and otherwise requiring a candidate version that is the providing version
and satisfies the requirement's constraint; APT::Install::Virtual stops
at the first solution. -/
def virtualWalk (E : Ext) (req : RequirementSpec)
    (entries : List (Pkg × Ver × Option Name)) :
    List Pkg → List Pkg → List Pkg
  | [], good => good
  | p :: rest, good =>
    match entries.find? (fun e => e.1.name = p.name) with
    | none => virtualWalk E req entries rest good
    | some e =>
      if good.any (fun g => g.name = p.name) then
        virtualWalk E req entries rest good
      else if p.current = some e.2.1 then
        if E.instVirtual then good ++ [p]
        else virtualWalk E req entries rest (good ++ [p])
      else
        match p.candidate with
        | none => virtualWalk E req entries rest good
        | some cand =>
          let constraintOk :=
            if req.has_version then
              match e.2.2 with
              | none => false
              | some pv => E.vs pv req.op req.version
            else true
          if constraintOk then
            if cand = e.2.1 then
              if E.instVirtual then good ++ [p]
              else virtualWalk E req entries rest (good ++ [p])
            else virtualWalk E req entries rest good
          else virtualWalk E req entries rest good

/-- resolve_virtual_package (apt_package_operations.cpp:77): when the
resolved package is a pure virtual record (no versions, some provides),
disambiguate among its providers; exactly one good solution selects it,
none fails, several fail with the annotated provider list. -/
def resolve_virtual_package (E : Ext) (db : Db) (req : RequirementSpec)
    (pkg : Pkg) : Except AptError Pkg :=
  if pkgVers pkg = [] ∧ provEntries db pkg.name ≠ [] then
    let entries := provEntries db pkg.name
    let sorted := E.scoreSort (entries.map (fun e => e.1))
    match virtualWalk E req entries sorted [] with
    | [q] => .ok q
    | [] => .error ⟨ePackageNotFound, .noInstallableProviders req.name⟩
    | qs =>
      .error ⟨ePackageNotFound, .virtualProvidedBy req.name
        (qs.map (fun q => (q.name,
          (match q.candidate with
           | some v => v.verStr
           | none => []),
          q.current.isSome)))⟩
  else .ok pkg

/-- process_package_installs (apt_package_operations.cpp:171): resolve
each requirement, record the resolved package name in the requested set,
mark Install(manual), and re-mark with auto-install enabled if the mark
left the package install-broken. -/
def process_package_installs (E : Ext) (db : Db) :
    List Name → Marks → List Name → (Except AptError Unit) × Marks × List Name
  | [], m, req => (.ok (), m, req)
  | raw :: rest, m, req =>
    let r := parse_requirement raw
    match find_install_package E db r with
    | .error e => (.error e, m, req)
    | .ok pkg0 =>
      match resolve_virtual_package E db r pkg0 with
      | .error e => (.error e, m, req)
      | .ok pkg =>
        let req1 := insertName pkg.name req
        let m1 := markInstall m pkg.name .manual
        let m2 :=
          if E.instBroken db m1 pkg.name then
            E.autoCascade db (markInstall m1 pkg.name .dontChange) pkg.name
          else m1
        process_package_installs E db rest m2 req1

/-- Does this package's currently installed version provide the
requirement's name (with its constraint)?  Removal provider scans only
consider installed versions. -/
def removeProvHit (E : Ext) (req : RequirementSpec) (q : Pkg) : Bool :=
  match q.current with
  | none => false
  | some cv => provHit E req cv

/-- find_remove_package (apt_package_operations.cpp:296): direct lookup,
else a scan over installed providers; zero providers fail, two or more
fail with the provider list. -/
def find_remove_package (E : Ext) (db : Db) (req : RequirementSpec) :
    Except AptError Pkg :=
  match findPkg db req.name with
  | some p => .ok p
  | none =>
    match db.filter (removeProvHit E req) with
    | [] => .error ⟨ePackageNotFound, .notInstalledNotRemoved req.name⟩
    | [p] => .ok p
    | ps => .error ⟨eDependencyBroken, .multipleProviders req.name (ps.map Pkg.name)⟩

/-- resolve_virtual_remove_package (apt_package_operations.cpp:338): when
the resolved package is not installed, re-disambiguate among installed
providers of the requirement's name; the same zero / one / many rules
apply. -/
def resolve_virtual_remove_package (E : Ext) (db : Db)
    (req : RequirementSpec) (pkg : Pkg) : Except AptError Pkg :=
  if pkg.current.isSome then .ok pkg
  else
    match db.filter (removeProvHit E req) with
    | [] => .error ⟨ePackageNotFound, .notInstalledNotRemoved req.name⟩
    | [p] => .ok p
    | ps => .error ⟨eDependencyBroken, .multipleProviders req.name (ps.map Pkg.name)⟩

/-- process_package_removals (apt_package_operations.cpp:374): record the
parsed name in the requested-remove set, resolve, reject essential
packages terminally, mark Delete(purge) and record the removal target. -/
def process_package_removals (E : Ext) (db : Db) (purge : Bool) :
    List Name → Marks → List Name → List (Name × Name) →
    (Except AptError Unit) × Marks × List Name × List (Name × Name)
  | [], m, req, tgts => (.ok (), m, req, tgts)
  | raw :: rest, m, req, tgts =>
    let r := parse_requirement raw
    let req1 := insertName r.name req
    match find_remove_package E db r with
    | .error e => (.error e, m, req1, tgts)
    | .ok pkg0 =>
      match resolve_virtual_remove_package E db r pkg0 with
      | .error e => (.error e, m, req1, tgts)
      | .ok pkg =>
        if pkg.essential then
          (.error ⟨eOperationIncomplete, .cannotRemoveEssential pkg.name⟩, m, req1, tgts)
        else
          process_package_removals E db purge rest (markDelete m pkg.name purge)
            req1 (tgts ++ [(r.name, pkg.name)])

/-- process_package_reinstalls (apt_package_operations.cpp:214): resolve
a plain name like an install (or an archive argument through the file
lookup), require the package to be installed and (for plain names) its
installed version to be downloadable, then set the ReInstall flag. -/
def process_package_reinstalls (E : Ext) (db : Db) :
    List Name → Marks → List Name → (Except AptError Unit) × Marks × List Name
  | [], m, req => (.ok (), m, req)
  | raw :: rest, m, req =>
    let r := parse_requirement raw
    let resolved : Except AptError Pkg :=
      if is_rpm_file raw then
        match E.rpmLookup db raw with
        | none => .error ⟨ePackageNotFound, .rpmNotFound raw⟩
        | some pn =>
          match findPkg db pn with
          | none => .error ⟨ePackageNotFound, .notInstalledReinstall pn⟩
          | some p => .ok p
      else find_install_package E db r
    match resolved with
    | .error e => (.error e, m, req)
    | .ok pkg =>
      match pkg.current with
      | none => (.error ⟨ePackageNotFound, .notInstalledReinstall pkg.name⟩, m, req)
      | some cv =>
        if !is_rpm_file raw && !cv.downloadable then
          (.error ⟨eDownloadFailed, .reinstallNotDownloadable pkg.name cv.verStr⟩, m, req)
        else
          process_package_reinstalls E db rest
            (setReInstall m pkg.name true) (insertName pkg.name req)

/-- One dependency edge of the conflict check: a hit when the edge is a
Conflicts edge whose target is another requested package and whose
constraint is satisfied by that target's candidate version. -/
def conflictEdgeHit (E : Ext) (db : Db) (pkgs : List Pkg) (p1 : Pkg)
    (d : DepType × DepAlt) : Option (Name × Name) :=
  if d.1 = DepType.conflicts then
    match findPkg db d.2.target with
    | none => none
    | some tp =>
      if pkgs.any (fun p2 => decide (p2.name ≠ p1.name ∧ p2.name = tp.name)) then
        match tp.candidate with
        | none => none
        | some tv =>
          if checkDepV E tv.verStr d.2 then some (p1.name, tp.name) else none
      else none
  else none

/-- The inner scan of check_package_conflicts for one requested package:
the first hit among the flat dependency edges of its candidate version. -/
def conflictHit (E : Ext) (db : Db) (pkgs : List Pkg) (p1 : Pkg) :
    Option (Name × Name) :=
  match p1.candidate with
  | none => none
  | some v1 => (flatDeps v1).findSome? (conflictEdgeHit E db pkgs p1)

/-- check_package_conflicts (apt_package_operations.cpp:428): runs only
with at least two requested installs; fails naming the first conflicting
requested pair. -/
def check_package_conflicts (E : Ext) (db : Db) (reqI : List Name) :
    Except AptError Unit :=
  if reqI.length < 2 then .ok ()
  else
    let pkgs := reqI.filterMap (findPkg db)
    match pkgs.findSome? (conflictHit E db pkgs) with
    | some pr => .error ⟨eDependencyBroken, .conflictingPackages pr.1 pr.2⟩
    | none => .ok ()

/-- The candidate version of a package name, if any. -/
def pkgCandidate (db : Db) (n : Name) : Option Ver :=
  (findPkg db n).bind (fun p => p.candidate)

/-- One critical OR-group of the install preseeder: if the group is not
already satisfied, the first alternative with a resolvable target and a
satisfiable candidate is marked Install(auto) with the auto-install
cascade; walking stops at that alternative. -/
def preseedGroup (E : Ext) (db : Db) (g : DepGroup) (m : Marks) : Marks :=
  if !isCritical g.dtype then m
  else if E.depGInstall db m g then m
  else preseedAlts E db m g.alts
where
  preseedAlts (E : Ext) (db : Db) (m : Marks) : List DepAlt → Marks
    | [] => m
    | alt :: rest =>
      match E.smartTarget db alt.target with
      | none => preseedAlts E db m rest
      | some tn =>
        if E.depCVer db m alt then
          if !isInstallMode (getMark m tn).mode && (pkgCandidate db tn).isSome then
            E.autoCascade db (markInstall m tn .auto) tn
          else m
        else preseedAlts E db m rest

/-- preprocess_installs (apt_package_operations.cpp:486): for every
requested install still marked install, walk the critical dependency
groups of its to-be-installed version and preseed an unmet alternative. -/
def preprocess_installs (E : Ext) (db : Db) (reqI : List Name) (m : Marks) :
    Marks :=
  reqI.foldl (fun acc n =>
    match findPkg db n with
    | none => acc
    | some p =>
      if isInstallMode (getMark acc n).mode then
        match instVerOf acc p with
        | none => acc
        | some iv => iv.depends.foldl (fun a g => preseedGroup E db g a) acc
      else acc) m

/-- preprocess_removals (apt_package_operations.cpp:540): re-check that
no requested removal still marked delete is essential. -/
def preprocess_removals (db : Db) (reqR : List Name) (m : Marks) :
    Except AptError Unit :=
  match reqR with
  | [] => .ok ()
  | n :: rest =>
    match findPkg db n with
    | none => preprocess_removals db rest m
    | some p =>
      if isDeleteMode (getMark m n).mode && p.essential then
        .error ⟨eOperationIncomplete, .cannotRemoveEssential p.name⟩
      else preprocess_removals db rest m

/-- The corrective pass of the finalizer: every requested install that is
neither marked install nor currently installed is re-marked
Install(manual). -/
def correctiveRemark (db : Db) (reqI : List Name) (m : Marks) : Marks :=
  reqI.foldl (fun acc n =>
    match findPkg db n with
    | none => acc
    | some p =>
      if !isInstallMode (getMark acc n).mode && p.current.isNone then
        markInstall acc n .manual
      else acc) m

/-- The packages reported broken by the post-resolution scan. -/
def brokenList (E : Ext) (db : Db) (m : Marks) : List Pkg :=
  db.filter (fun p => E.instBroken db m p.name || E.nowBroken db m p.name)

/-- The diagnostic of the finalizer: each broken package together with
the first unmet critical (Depends/PreDepends) edge of its to-be-installed
version, as target name, comparison operator and version constraint. -/
def brokenDiag (E : Ext) (db : Db) (m : Marks) :
    List (Name × Option (Name × Nat × Option Name)) :=
  (brokenList E db m).map (fun p => (p.name,
    match instVerOf m p with
    | none => none
    | some iv =>
      (flatDeps iv).findSome? (fun d =>
        if (d.1 = DepType.depends || d.1 = DepType.preDepends) &&
            !E.depInstall db m d.2 then
          some (d.2.target, d.2.compOp, d.2.targetVer)
        else none)))

/-- finalize_dependency_resolution (apt_package_operations.cpp:565):
protect the requested installs and removals, invoke the resolver
(tolerating a soft failure by discarding its pending errors), run the
corrective re-mark pass over the requested installs, and fail with the
broken diagnostic when broken packages remain or with the drained
pending-error state when the lower layer reports failure. -/
def finalize_dependency_resolution (E : Ext) (db : Db)
    (reqI reqR : List Name) (remove_depends : Bool) (m : Marks) :
    (Except AptError Unit) × Marks :=
  let protI := reqI.filter (fun n =>
    (findPkg db n).isSome && isInstallMode (getMark m n).mode)
  let protR := reqR.filter (fun n =>
    (findPkg db n).isSome && isDeleteMode (getMark m n).mode)
  let res := E.resolve db m protI protR (remove_depends || E.remDependsCfg)
  let m1 := res.1
  let pend := if res.2.1 then res.2.2 else false
  let m2 := correctiveRemark db reqI m1
  let nBroken := (db.filter (fun p => E.instBroken db m2 p.name)).length
  if nBroken ≠ 0 then
    let info := brokenDiag E db m2
    if info ≠ [] then (.error ⟨eDependencyBroken, .brokenPackages info⟩, m2)
    else (.error ⟨eDependencyBroken, .impossibleSituation⟩, m2)
  else if pend then (.error ⟨eDependencyBroken, .pendingAptErrors⟩, m2)
  else (.ok (), m2)

/-- One package's bucketing and size accumulation in the change
collector's scan (apt_package_operations.cpp:675). -/
def collectStep (reqI reqR : List Name) (m : Marks) (acc : Changes)
    (p : Pkg) : Changes :=
  if stNewInstall m p then
    let acc1 := { acc with new_installed := acc.new_installed ++ [p.name] }
    let acc2 :=
      if reqI.contains p.name then acc1
      else { acc1 with extra_installed := acc1.extra_installed ++ [p.name] }
    match p.candidate with
    | some cv =>
      { acc2 with
          download_size := uadd acc2.download_size cv.size
          install_size := uadd acc2.install_size cv.instSize }
    | none => acc2
  else if stUpgrade m p then
    let acc1 := { acc with upgraded := acc.upgraded ++ [p.name] }
    match p.candidate with
    | some cv =>
      let acc2 := { acc1 with
        download_size := uadd acc1.download_size cv.size
        install_size := uadd acc1.install_size cv.instSize }
      match instVerOf m p with
      | some iv => { acc2 with install_size := usub acc2.install_size iv.instSize }
      | none => acc2
    | none => acc1
  else if stDelete m p then
    let acc1 := { acc with removed := acc.removed ++ [p.name] }
    let acc2 :=
      if reqR.contains p.name then acc1
      else { acc1 with extra_removed := acc1.extra_removed ++ [p.name] }
    match instVerOf m p with
    | some iv => { acc2 with install_size := usub acc2.install_size iv.instSize }
    | none => acc2
  else if (getMark m p.name).reinstall then
    let acc1 := { acc with new_installed := acc.new_installed ++ [p.name] }
    match p.current with
    | some cv => { acc1 with download_size := uadd acc1.download_size cv.size }
    | none => acc1
  else acc

/-- collect_package_changes (apt_package_operations.cpp:662): a single
pure scan of the post-resolution mark states. -/
def collect_package_changes (reqI reqR : List Name) (m : Marks) (db : Db) :
    Changes :=
  db.foldl (collectStep reqI reqR m) {}

/-- plan_change_internal (apt_simulate.cpp:180): the unified planner.
Archive-file arguments are preprocessed through the external file-import
path; otherwise the snapshot of the mark state is taken (simulate mode),
the marking, conflict, preseed and finalization steps run in order with
the first failure short-circuiting the call, the changes are collected,
and the snapshot is restored on the success path of simulate mode. -/
def plan_change_internal (E : Ext) (db : Db) (installs removes : List Name)
    (purge remove_depends apply : Bool) (m0 : Marks) : PlanOutput :=
  if installs.any is_rpm_file || removes.any is_rpm_file then
    E.rpmPlan db installs removes purge remove_depends apply m0
  else
    match process_package_installs E db installs m0 [] with
    | (.error e, m, _) => { result := .error e, marks := m }
    | (.ok _, m1, reqI) =>
      match process_package_removals E db purge removes m1 [] [] with
      | (.error e, m, _, _) => { result := .error e, marks := m }
      | (.ok _, m2, reqR, _tgts) =>
        match check_package_conflicts E db reqI with
        | .error e => { result := .error e, marks := m2 }
        | .ok _ =>
          let m3 := preprocess_installs E db reqI m2
          match preprocess_removals db reqR m3 with
          | .error e => { result := .error e, marks := m3 }
          | .ok _ =>
            match finalize_dependency_resolution E db reqI reqR remove_depends m3 with
            | (.error e, m4) => { result := .error e, marks := m4 }
            | (.ok _, m4) =>
              let ch := collect_package_changes reqI reqR m4 db
              { result := .ok ch, marks := if apply then m4 else m0 }

end Apm

namespace Apm

/-- Default collaborator instance: trivial comparator, identity score
sort, no broken packages, an identity resolver with no pending errors. -/
def extDefault : Ext := {}

/-- Fixture: a plain installable package "a" (not installed, candidate
available). -/
def fxVa : Ver := { verStr := ['1'], size := 10, instSize := 20 }
def fxPkgA : Pkg := { name := ['a'], candidate := some fxVa }

/-- Fixture: an installed essential package "b". -/
def fxVb : Ver := { verStr := ['1'] }
def fxPkgB : Pkg :=
  { name := ['b'], essential := true, current := some fxVb, candidate := some fxVb }

/-- Fixture database for the simulate-rollback claims. -/
def fxDbC1 : Db := [fxPkgA, fxPkgB]

/-- Fixture: an installed non-essential package "p". -/
def fxVp : Ver := { verStr := ['1'] }
def fxPkgP : Pkg := { name := ['p'], current := some fxVp, candidate := some fxVp }

/-- Fixture: an installed essential package "e". -/
def fxPkgE : Pkg :=
  { name := ['e'], essential := true, current := some fxVp, candidate := some fxVp }

/-- Fixture database for the essential-removal claim. -/
def fxDbC2 : Db := [fxPkgP, fxPkgE]

end Apm

namespace Apm

/-- Candidate archive size of a package, zero when no candidate. -/
def candSize (p : Pkg) : Nat :=
  match p.candidate with
  | some cv => cv.size
  | none => 0

/-- Candidate installed size of a package, zero when no candidate. -/
def candInstSize (p : Pkg) : Nat :=
  match p.candidate with
  | some cv => cv.instSize
  | none => 0

/-- Current-version archive size of a package, zero when not installed. -/
def curSize (p : Pkg) : Nat :=
  match p.current with
  | some cv => cv.size
  | none => 0

/-- Row classification of the collector's elif chain: Upgrade branch. -/
def rowUpgraded (m : Marks) (p : Pkg) : Bool :=
  !stNewInstall m p && stUpgrade m p

/-- Row classification: Delete branch. -/
def rowRemoved (m : Marks) (p : Pkg) : Bool :=
  !stNewInstall m p && !stUpgrade m p && stDelete m p

/-- Row classification: pure-ReInstall branch. -/
def rowReinstall (m : Marks) (p : Pkg) : Bool :=
  !stNewInstall m p && !stUpgrade m p && !stDelete m p &&
    (getMark m p.name).reinstall

/-- Rows reported in new_installed: NewInstall and pure reinstalls. -/
def rowNewInstalled (m : Marks) (p : Pkg) : Bool :=
  stNewInstall m p || rowReinstall m p

/-- Rows reported in extra_installed: NewInstall outside the requested
install set (pure reinstalls are never added here). -/
def rowExtraInstalled (reqI : List Name) (m : Marks) (p : Pkg) : Bool :=
  stNewInstall m p && !(reqI.contains p.name)

/-- Rows reported in extra_removed. -/
def rowExtraRemoved (reqR : List Name) (m : Marks) (p : Pkg) : Bool :=
  rowRemoved m p && !(reqR.contains p.name)

/-- The download-size contribution of one package in the collector. -/
def dlContrib (m : Marks) (p : Pkg) : Nat :=
  if stNewInstall m p then candSize p
  else if rowUpgraded m p then candSize p
  else if rowRemoved m p then 0
  else if rowReinstall m p then curSize p
  else 0

/-- The install-size contribution of one package in the collector: only
NewInstall rows contribute; Upgrade rows add and then subtract the
candidate's installed size (the install version of an install-marked
package is the candidate), and the install version of a delete-marked
package is null, so neither changes the total. -/
def instContrib (m : Marks) (p : Pkg) : Nat :=
  if stNewInstall m p then candInstSize p else 0

end Apm

namespace Apm

/-- Fixture: an installed package "q" with an upgrade candidate (current
installed-size 100, candidate size 50 / installed-size 300). -/
def fxCv1 : Ver := { verStr := ['1'], size := 0, instSize := 100 }
def fxCv2 : Ver := { verStr := ['2'], size := 50, instSize := 300 }
def fxPkgQ : Pkg := { name := ['q'], current := some fxCv1, candidate := some fxCv2 }
def fxMarksQ : Marks := [(['q'], { mode := .install })]

/-- Fixture: an installed package "r" (installed-size 100) marked for
deletion. -/
def fxVr : Ver := { verStr := ['1'], instSize := 100 }
def fxPkgR : Pkg := { name := ['r'], current := some fxVr, candidate := some fxVr }
def fxMarksR : Marks := [(['r'], { mode := .delete false })]

/-- Fixture: the spec's editor scenario: a real package with candidate
size 1000 and installed-size 4000, no dependencies. -/
def fxVe : Ver := { verStr := ['1'], size := 1000, instSize := 4000 }
def fxEName : Name := ['e', 'd', 'i', 't', 'o', 'r']
def fxEditor : Pkg := { name := fxEName, candidate := some fxVe }
def fxDbEd : Db := [fxEditor]

/-- Fixture: an installed package "w" (current size 77) flagged for
reinstall and otherwise kept. -/
def fxVw : Ver := { verStr := ['1'], size := 77, instSize := 9 }
def fxPkgW : Pkg := { name := ['w'], current := some fxVw, candidate := some fxVw }
def fxMarksW : Marks := [(['w'], { reinstall := true })]

end Apm

namespace Apm

/-- Fixture: a version providing the virtual name "m". -/
def fxVprov : Ver := { verStr := ['1'], provides := [{ name := ['m'] }] }

/-- Fixture: two installed providers of the virtual name "m". -/
def fxSend : Pkg :=
  { name := ['s', 'e', 'n', 'd'], current := some fxVprov, candidate := some fxVprov }
def fxPost : Pkg :=
  { name := ['p', 'o', 's', 't'], current := some fxVprov, candidate := some fxVprov }

/-- Fixture: the pure virtual package record "m" (no versions). -/
def fxVirtM : Pkg := { name := ['m'] }

/-- Fixture database for the ambiguous virtual removal claim. -/
def fxDbC5 : Db := [fxVirtM, fxSend, fxPost]

/-- Fixture: an installed package "x" whose installed version is not
downloadable. -/
def fxVnd : Ver := { verStr := ['1'], downloadable := false }
def fxPkgX : Pkg := { name := ['x'], current := some fxVnd, candidate := some fxVnd }

/-- Fixture: a package "y" that is not installed. -/
def fxPkgY : Pkg := { name := ['y'], candidate := some fxVa }

/-- Fixture: an installed package "z" with a downloadable installed
version. -/
def fxVz : Ver := { verStr := ['1'], size := 5 }
def fxPkgZ : Pkg := { name := ['z'], current := some fxVz, candidate := some fxVz }

/-- Fixture database for the reinstall claim. -/
def fxDbC8 : Db := [fxPkgX, fxPkgY, fxPkgZ]

end Apm

namespace Apm

/-- The mark-state effect of one install-marking step: Install(manual),
re-marked with the auto-install cascade when the mark left the package
install-broken. -/
def installStepMarks (E : Ext) (db : Db) (p : Pkg) (m : Marks) : Marks :=
  let m1 := markInstall m p.name .manual
  if E.instBroken db m1 p.name then
    E.autoCascade db (markInstall m1 p.name .dontChange) p.name
  else m1

end Apm

namespace Apm

/-- Fixture: package "a" whose candidate conflicts with "b". -/
def fxVcb : Ver := { verStr := ['2'] }
def fxVca : Ver :=
  { verStr := ['1'],
    depends := [{ dtype := DepType.conflicts, alts := [{ target := ['b'] }] }] }
def fxCa : Pkg := { name := ['a'], candidate := some fxVca }
def fxCb : Pkg := { name := ['b'], candidate := some fxVcb }

/-- Fixture database for the conflict claims. -/
def fxDbC7 : Db := [fxCa, fxCb]

end Apm

namespace Apm

/-- Fixture: a resolver collaborator that succeeds but leaves pending
lower-layer errors behind. -/
def extPend : Ext := { resolve := fun _ m _ _ _ => (m, true, true) }

end Apm

-- ===== THEOREMS =====

namespace Apm

theorem startsWith_nil_right (s : Name) : startsWith s [] = true := by
  cases s <;> rfl

theorem startsWith_cons_cons (c : Char) (s : Name) (p : Char) (ps : Name) :
    startsWith (c :: s) (p :: ps) = (c = p && startsWith s ps) := rfl

/-- A pattern whose head is an operator character never starts a string
whose head is not one. -/
theorem startsWith_false_of_head (c : Char) (s : Name) (p : Char) (ps : Name)
    (hc : isOpChar c = false) (hp : isOpChar p = true) :
    startsWith (c :: s) (p :: ps) = false := by
  have hne : c ≠ p := by
    intro h
    subst h
    rw [hc] at hp
    exact Bool.noConfusion hp
  rw [startsWith_cons_cons]
  simp [hne]

/-- strFind skips over a block that contains no operator characters when
the pattern starts with one. -/
theorem strFind_append_shift (xs ys : Name) (p : Char) (ps : Name)
    (hxs : ∀ c ∈ xs, isOpChar c = false) (hp : isOpChar p = true) :
    strFind (xs ++ ys) (p :: ps) = (strFind ys (p :: ps)).map (· + xs.length) := by
  induction xs with
  | nil =>
    simp only [List.nil_append, List.length_nil]
    cases h : strFind ys (p :: ps) <;> simp
  | cons x xt ih =>
    have hx : isOpChar x = false := hxs x (by simp)
    have ht : ∀ c ∈ xt, isOpChar c = false := fun c hc => hxs c (by simp [hc])
    have hsw : startsWith (x :: (xt ++ ys)) (p :: ps) = false :=
      startsWith_false_of_head x (xt ++ ys) p ps hx hp
    show (if startsWith (x :: (xt ++ ys)) (p :: ps) = true then some 0
        else (strFind (xt ++ ys) (p :: ps)).map (· + 1)) = _
    rw [hsw, if_neg (by simp), ih ht]
    cases h : strFind ys (p :: ps) with
    | none => simp
    | some v => simp [List.length_cons]; omega

/-- strFind finds nothing in a block without operator characters when the
pattern starts with one. -/
theorem strFind_none_of_noOp (xs : Name) (p : Char) (ps : Name)
    (hxs : ∀ c ∈ xs, isOpChar c = false) (hp : isOpChar p = true) :
    strFind xs (p :: ps) = none := by
  induction xs with
  | nil => rfl
  | cons x xt ih =>
    have hx : isOpChar x = false := hxs x (by simp)
    have ht : ∀ c ∈ xt, isOpChar c = false := fun c hc => hxs c (by simp [hc])
    have hsw : startsWith (x :: xt) (p :: ps) = false :=
      startsWith_false_of_head x xt p ps hx hp
    show (if startsWith (x :: xt) (p :: ps) = true then some 0
        else (strFind xt (p :: ps)).map (· + 1)) = none
    rw [hsw, if_neg (by simp), ih ht]
    rfl

end Apm

namespace Apm

/-- One step of strFind when the pattern does not match at the head. -/
theorem strFind_step_none (c : Char) (s pat : Name)
    (h : startsWith (c :: s) pat = false) (h2 : strFind s pat = none) :
    strFind (c :: s) pat = none := by
  show (if startsWith (c :: s) pat = true then some 0
      else (strFind s pat).map (· + 1)) = none
  rw [h, if_neg (by simp), h2]
  rfl

/-- A pattern starting with a different character than the head, whose
head is an operator character, does not occur in `c :: ver` when `ver`
has no operator characters. -/
theorem strFind_cons_ne (c p : Char) (ps ver : Name) (hne : c ≠ p)
    (hp : isOpChar p = true) (hv : ∀ x ∈ ver, isOpChar x = false) :
    strFind (c :: ver) (p :: ps) = none := by
  apply strFind_step_none
  · rw [startsWith_cons_cons]
    simp [hne]
  · exact strFind_none_of_noOp ver p ps hv hp

/-- A single-character pattern equal to the head matches at position 0. -/
theorem strFind_cons_eq_single (c : Char) (s : Name) :
    strFind (c :: s) [c] = some 0 := by
  show (if startsWith (c :: s) [c] = true then some 0
      else (strFind s [c]).map (· + 1)) = some 0
  rw [startsWith_cons_cons, startsWith_nil_right]
  simp

/-- A two-character pattern equal to the two head characters matches at
position 0. -/
theorem strFind_cons2_eq (c1 c2 : Char) (s : Name) :
    strFind (c1 :: c2 :: s) [c1, c2] = some 0 := by
  show (if startsWith (c1 :: c2 :: s) [c1, c2] = true then some 0
      else (strFind (c2 :: s) [c1, c2]).map (· + 1)) = some 0
  rw [startsWith_cons_cons, startsWith_cons_cons, startsWith_nil_right]
  simp

/-- A two-character pattern whose first character matches the head but
whose second is an operator character does not occur in `c :: ver` when
`ver` has no operator characters. -/
theorem strFind_cons_headEq_two (c q : Char) (ver : Name)
    (hc : isOpChar c = true) (hq : isOpChar q = true)
    (hv : ∀ x ∈ ver, isOpChar x = false) :
    strFind (c :: ver) [c, q] = none := by
  apply strFind_step_none
  · rw [startsWith_cons_cons]
    cases ver with
    | nil => simp [startsWith]
    | cons v vt =>
      have hvq : v ≠ q := by
        intro h
        subst h
        rw [hv v (by simp)] at hq
        exact Bool.noConfusion hq
      rw [startsWith_cons_cons]
      simp [hvq]
  · exact strFind_none_of_noOp ver c [q] hv hc

end Apm

namespace Apm

/-- The version part produced for `name ++ op ++ ver`: the suffix after
the operator with surrounding whitespace trimmed. -/
theorem parse_take_drop (name rest ver : Name) (w : Nat) (hw : rest.length = w) :
    (name ++ (rest ++ ver)).take name.length = name ∧
    (name ++ (rest ++ ver)).drop (name.length + w) = ver := by
  constructor
  · rw [List.take_left]
  · rw [← List.append_assoc]
    apply List.drop_left'
    simp [hw]

/-- A string without operator characters parses as a bare name. -/
theorem parse_requirement_bare (name : Name)
    (hn : ∀ c ∈ name, isOpChar c = false) :
    parse_requirement name = { name := name } := by
  have h1 := strFind_none_of_noOp name '<' ['='] hn (by decide)
  have h2 := strFind_none_of_noOp name '>' ['='] hn (by decide)
  have h3 := strFind_none_of_noOp name '!' ['='] hn (by decide)
  have h4 := strFind_none_of_noOp name '=' [] hn (by decide)
  have h5 := strFind_none_of_noOp name '<' [] hn (by decide)
  have h6 := strFind_none_of_noOp name '>' [] hn (by decide)
  simp only [parse_requirement, h1, h2, h3, h4, h5, h6]

/-- Claim C9: for each operator in priority order <=, >=, !=, =, <, >
and any name and version free of operator characters, parsing
`name ++ op ++ version` yields the requirement (name, op-code,
whitespace-trimmed version); a string without operator characters parses
as a bare name; and the two-character operators win over their
one-character prefixes, as the concrete split of "a<b<=c" shows. -/
theorem claim_C9_parse_requirement (name ver : Name) (op : Nat)
    (hn : ∀ c ∈ name, isOpChar c = false)
    (hv : ∀ c ∈ ver, isOpChar c = false)
    (hop : op ∈ ([1, 2, 3, 4, 5, 6] : List Nat)) :
    parse_requirement (name ++ opChars op ++ ver) =
      { name := name, op := op, version := trimVer ver,
        has_version := !(trimVer ver).isEmpty } ∧
    parse_requirement name = { name := name } ∧
    parse_requirement ('a' :: '<' :: 'b' :: '<' :: '=' :: 'c' :: []) =
      { name := ['a', '<', 'b'], op := opLessEq, version := ['c'],
        has_version := true } := by
  refine ⟨?_, ?_, by decide⟩
  · fin_cases hop
    · -- op = 1 : "<="
      have hoc : opChars 1 = ['<', '='] := rfl
      rw [hoc, List.append_assoc]
      have h1 : strFind (name ++ (['<', '='] ++ ver)) ['<', '='] =
          some name.length := by
        rw [strFind_append_shift name _ '<' ['='] hn (by decide)]
        simp only [List.cons_append, List.nil_append]
        have : strFind ('<' :: '=' :: ver) ['<', '='] = some 0 :=
          strFind_cons2_eq '<' '=' ver
        rw [this]
        simp
      have hTD := parse_take_drop name ['<', '='] ver 2 rfl
      simp only [parse_requirement, h1]
      simp only [opLessEq, opGreaterEq, opNotEquals, opEquals, opLess, opGreater]
      rw [if_pos (by decide)]
      rw [hTD.1, hTD.2]
    · -- op = 2 : ">="
      have hoc : opChars 2 = ['>', '='] := rfl
      rw [hoc, List.append_assoc]
      have h1 : strFind (name ++ (['>', '='] ++ ver)) ['<', '='] = none := by
        rw [strFind_append_shift name _ '<' ['='] hn (by decide)]
        simp only [List.cons_append, List.nil_append]
        have : strFind ('>' :: '=' :: ver) ['<', '='] = none := by
          apply strFind_step_none
          · rw [startsWith_cons_cons]
            simp [show ('>' : Char) ≠ '<' from by decide]
          · exact strFind_cons_ne '=' '<' ['='] ver (by decide) (by decide) hv
        rw [this]
        simp
      have h2 : strFind (name ++ (['>', '='] ++ ver)) ['>', '='] =
          some name.length := by
        rw [strFind_append_shift name _ '>' ['='] hn (by decide)]
        simp only [List.cons_append, List.nil_append]
        rw [strFind_cons2_eq '>' '=' ver]
        simp
      have hTD := parse_take_drop name ['>', '='] ver 2 rfl
      simp only [parse_requirement, h1, h2]
      simp only [opLessEq, opGreaterEq, opNotEquals, opEquals, opLess, opGreater]
      rw [if_pos (by decide)]
      rw [hTD.1, hTD.2]
    · -- op = 3 : "<"
      have hoc : opChars 3 = ['<'] := rfl
      rw [hoc, List.append_assoc]
      have h1 : strFind (name ++ (['<'] ++ ver)) ['<', '='] = none := by
        rw [strFind_append_shift name _ '<' ['='] hn (by decide)]
        simp only [List.cons_append, List.nil_append]
        rw [strFind_cons_headEq_two '<' '=' ver (by decide) (by decide) hv]
        simp
      have h2 : strFind (name ++ (['<'] ++ ver)) ['>', '='] = none := by
        rw [strFind_append_shift name _ '>' ['='] hn (by decide)]
        simp only [List.cons_append, List.nil_append]
        rw [strFind_cons_ne '<' '>' ['='] ver (by decide) (by decide) hv]
        simp
      have h3 : strFind (name ++ (['<'] ++ ver)) ['!', '='] = none := by
        rw [strFind_append_shift name _ '!' ['='] hn (by decide)]
        simp only [List.cons_append, List.nil_append]
        rw [strFind_cons_ne '<' '!' ['='] ver (by decide) (by decide) hv]
        simp
      have h4 : strFind (name ++ (['<'] ++ ver)) ['='] = none := by
        rw [strFind_append_shift name _ '=' [] hn (by decide)]
        simp only [List.cons_append, List.nil_append]
        rw [strFind_cons_ne '<' '=' [] ver (by decide) (by decide) hv]
        simp
      have h5 : strFind (name ++ (['<'] ++ ver)) ['<'] = some name.length := by
        rw [strFind_append_shift name _ '<' [] hn (by decide)]
        simp only [List.cons_append, List.nil_append]
        rw [strFind_cons_eq_single '<' ver]
        simp
      have hTD := parse_take_drop name ['<'] ver 1 rfl
      simp only [parse_requirement, h1, h2, h3, h4, h5]
      simp only [opLessEq, opGreaterEq, opNotEquals, opEquals, opLess, opGreater]
      rw [if_neg (by decide)]
      rw [hTD.1, hTD.2]
    · -- op = 4 : ">"
      have hoc : opChars 4 = ['>'] := rfl
      rw [hoc, List.append_assoc]
      have h1 : strFind (name ++ (['>'] ++ ver)) ['<', '='] = none := by
        rw [strFind_append_shift name _ '<' ['='] hn (by decide)]
        simp only [List.cons_append, List.nil_append]
        rw [strFind_cons_ne '>' '<' ['='] ver (by decide) (by decide) hv]
        simp
      have h2 : strFind (name ++ (['>'] ++ ver)) ['>', '='] = none := by
        rw [strFind_append_shift name _ '>' ['='] hn (by decide)]
        simp only [List.cons_append, List.nil_append]
        rw [strFind_cons_headEq_two '>' '=' ver (by decide) (by decide) hv]
        simp
      have h3 : strFind (name ++ (['>'] ++ ver)) ['!', '='] = none := by
        rw [strFind_append_shift name _ '!' ['='] hn (by decide)]
        simp only [List.cons_append, List.nil_append]
        rw [strFind_cons_ne '>' '!' ['='] ver (by decide) (by decide) hv]
        simp
      have h4 : strFind (name ++ (['>'] ++ ver)) ['='] = none := by
        rw [strFind_append_shift name _ '=' [] hn (by decide)]
        simp only [List.cons_append, List.nil_append]
        rw [strFind_cons_ne '>' '=' [] ver (by decide) (by decide) hv]
        simp
      have h5 : strFind (name ++ (['>'] ++ ver)) ['<'] = none := by
        rw [strFind_append_shift name _ '<' [] hn (by decide)]
        simp only [List.cons_append, List.nil_append]
        rw [strFind_cons_ne '>' '<' [] ver (by decide) (by decide) hv]
        simp
      have h6 : strFind (name ++ (['>'] ++ ver)) ['>'] = some name.length := by
        rw [strFind_append_shift name _ '>' [] hn (by decide)]
        simp only [List.cons_append, List.nil_append]
        rw [strFind_cons_eq_single '>' ver]
        simp
      have hTD := parse_take_drop name ['>'] ver 1 rfl
      simp only [parse_requirement, h1, h2, h3, h4, h5, h6]
      simp only [opLessEq, opGreaterEq, opNotEquals, opEquals, opLess, opGreater]
      rw [if_neg (by decide)]
      rw [hTD.1, hTD.2]
    · -- op = 5 : "="
      have hoc : opChars 5 = ['='] := rfl
      rw [hoc, List.append_assoc]
      have h1 : strFind (name ++ (['='] ++ ver)) ['<', '='] = none := by
        rw [strFind_append_shift name _ '<' ['='] hn (by decide)]
        simp only [List.cons_append, List.nil_append]
        rw [strFind_cons_ne '=' '<' ['='] ver (by decide) (by decide) hv]
        simp
      have h2 : strFind (name ++ (['='] ++ ver)) ['>', '='] = none := by
        rw [strFind_append_shift name _ '>' ['='] hn (by decide)]
        simp only [List.cons_append, List.nil_append]
        rw [strFind_cons_ne '=' '>' ['='] ver (by decide) (by decide) hv]
        simp
      have h3 : strFind (name ++ (['='] ++ ver)) ['!', '='] = none := by
        rw [strFind_append_shift name _ '!' ['='] hn (by decide)]
        simp only [List.cons_append, List.nil_append]
        rw [strFind_cons_ne '=' '!' ['='] ver (by decide) (by decide) hv]
        simp
      have h4 : strFind (name ++ (['='] ++ ver)) ['='] = some name.length := by
        rw [strFind_append_shift name _ '=' [] hn (by decide)]
        simp only [List.cons_append, List.nil_append]
        rw [strFind_cons_eq_single '=' ver]
        simp
      have hTD := parse_take_drop name ['='] ver 1 rfl
      simp only [parse_requirement, h1, h2, h3, h4]
      simp only [opLessEq, opGreaterEq, opNotEquals, opEquals, opLess, opGreater]
      rw [if_neg (by decide)]
      rw [hTD.1, hTD.2]
    · -- op = 6 : "!="
      have hoc : opChars 6 = ['!', '='] := rfl
      rw [hoc, List.append_assoc]
      have h1 : strFind (name ++ (['!', '='] ++ ver)) ['<', '='] = none := by
        rw [strFind_append_shift name _ '<' ['='] hn (by decide)]
        simp only [List.cons_append, List.nil_append]
        have : strFind ('!' :: '=' :: ver) ['<', '='] = none := by
          apply strFind_step_none
          · rw [startsWith_cons_cons]
            simp [show ('!' : Char) ≠ '<' from by decide]
          · exact strFind_cons_ne '=' '<' ['='] ver (by decide) (by decide) hv
        rw [this]
        simp
      have h2 : strFind (name ++ (['!', '='] ++ ver)) ['>', '='] = none := by
        rw [strFind_append_shift name _ '>' ['='] hn (by decide)]
        simp only [List.cons_append, List.nil_append]
        have : strFind ('!' :: '=' :: ver) ['>', '='] = none := by
          apply strFind_step_none
          · rw [startsWith_cons_cons]
            simp [show ('!' : Char) ≠ '>' from by decide]
          · exact strFind_cons_ne '=' '>' ['='] ver (by decide) (by decide) hv
        rw [this]
        simp
      have h3 : strFind (name ++ (['!', '='] ++ ver)) ['!', '='] =
          some name.length := by
        rw [strFind_append_shift name _ '!' ['='] hn (by decide)]
        simp only [List.cons_append, List.nil_append]
        rw [strFind_cons2_eq '!' '=' ver]
        simp
      have hTD := parse_take_drop name ['!', '='] ver 2 rfl
      simp only [parse_requirement, h1, h2, h3]
      simp only [opLessEq, opGreaterEq, opNotEquals, opEquals, opLess, opGreater]
      rw [if_pos (by decide)]
      rw [hTD.1, hTD.2]
  · exact parse_requirement_bare name hn

/-- Concrete instance of claim C9's theorem: parsing "libfoo>= 1.2 ". -/
theorem claim_C9_parse_requirement_witness :
    parse_requirement (('l' :: 'i' :: 'b' :: []) ++ opChars 2 ++
        (' ' :: '1' :: '.' :: '2' :: ' ' :: [])) =
      { name := ['l', 'i', 'b'], op := 2, version := ['1', '.', '2'],
        has_version := true } := by
  have h := (claim_C9_parse_requirement ('l' :: 'i' :: 'b' :: [])
    (' ' :: '1' :: '.' :: '2' :: ' ' :: []) 2
    (by decide) (by decide) (by decide)).1
  rw [h]
  decide

end Apm

namespace Apm

/-- Claim C1: the claim states that a simulate-mode (apply=false) call
leaves every package's observable mark state unchanged both on success
and on failure.  The code violates the failure half: every error return
of plan_change_internal skips the snapshot restore, so a failing step
after a successful marking step leaves the earlier marks behind.  Here
installing "a" succeeds (marking it Install) and removing essential "b"
then fails the call, which returns with "a" still marked Install. -/
theorem claim_C1_simulate_failure_leaks_marks :
    (plan_change_internal extDefault fxDbC1 [['a']] [['b']]
        false false false []).result =
      .error ⟨eOperationIncomplete, .cannotRemoveEssential ['b']⟩ ∧
    observeMarks fxDbC1
        (plan_change_internal extDefault fxDbC1 [['a']] [['b']]
          false false false []).marks ≠
      observeMarks fxDbC1 [] := by
  constructor
  · rfl
  · decide

/-- Claim C2: the claim states that a remove request naming an essential
package fails with the essential-package error and changes no package's
mark state.  The failure is correct (the call fails with
EssentialPackageProtected, realized as APT_ERROR_OPERATION_INCOMPLETE
"Cannot remove essential package"), but the mark-state half is violated:
with remove = [p, e] where only e is essential, p is marked Delete before
the failure and the error return skips the simulate-mode restore. -/
theorem claim_C2_essential_failure_leaks_marks :
    (plan_change_internal extDefault fxDbC2 [] [['p'], ['e']]
        false false false []).result =
      .error ⟨eOperationIncomplete, .cannotRemoveEssential ['e']⟩ ∧
    observeMarks fxDbC2
        (plan_change_internal extDefault fxDbC2 [] [['p'], ['e']]
          false false false []).marks ≠
      observeMarks fxDbC2 [] := by
  constructor
  · rfl
  · decide

end Apm

namespace Apm

theorem M64_pos : 0 < M64 := by
  unfold M64
  positivity

theorem uadd_lt (a b : Nat) : uadd a b < M64 := Nat.mod_lt _ M64_pos

theorem usub_lt (a b : Nat) : usub a b < M64 := Nat.mod_lt _ M64_pos

/-- Adding and then subtracting the same uint64 value is the identity on
values below 2^64. -/
theorem usub_uadd_cancel (i a : Nat) (h : i < M64) : usub (uadd i a) a = i := by
  unfold usub uadd M64 at *
  omega

theorem mod_add_assoc (x c r : Nat) :
    ((x + c) % M64 + r) % M64 = (x + (c + r)) % M64 := by
  rw [Nat.mod_add_mod, Nat.add_assoc]

theorem instVerOf_of_install (m : Marks) (p : Pkg)
    (h : isInstallMode (getMark m p.name).mode = true) :
    instVerOf m p = p.candidate := by
  unfold instVerOf
  cases hm : (getMark m p.name).mode with
  | keep => rw [hm] at h; exact absurd h (by simp [isInstallMode])
  | install => rfl
  | delete purge => rw [hm] at h; exact absurd h (by simp [isInstallMode])

theorem instVerOf_of_delete (m : Marks) (p : Pkg)
    (h : stDelete m p = true) : instVerOf m p = none := by
  unfold stDelete at h
  unfold instVerOf
  cases hm : (getMark m p.name).mode with
  | keep => rw [hm] at h; exact absurd h (by simp [isDeleteMode])
  | install => rw [hm] at h; exact absurd h (by simp [isDeleteMode])
  | delete purge => rfl

theorem stUpgrade_install (m : Marks) (p : Pkg) (h : stUpgrade m p = true) :
    isInstallMode (getMark m p.name).mode = true := by
  unfold stUpgrade at h
  have hh := h
  rw [Bool.and_eq_true] at hh
  exact hh.1

end Apm

namespace Apm

theorem uadd_eq (a b : Nat) : uadd a b = (a + b) % M64 := rfl

/-- One collector step, characterized per row classification and size
contribution. -/
theorem collectStep_eq (reqI reqR : List Name) (m : Marks) (acc : Changes)
    (p : Pkg) (hdl : acc.download_size < M64) (hins : acc.install_size < M64) :
    collectStep reqI reqR m acc p =
      { extra_installed := acc.extra_installed ++
          (if rowExtraInstalled reqI m p then [p.name] else []),
        extra_removed := acc.extra_removed ++
          (if rowExtraRemoved reqR m p then [p.name] else []),
        upgraded := acc.upgraded ++ (if rowUpgraded m p then [p.name] else []),
        new_installed := acc.new_installed ++
          (if rowNewInstalled m p then [p.name] else []),
        removed := acc.removed ++ (if rowRemoved m p then [p.name] else []),
        download_size := (acc.download_size + dlContrib m p) % M64,
        install_size := (acc.install_size + instContrib m p) % M64 } := by
  cases hni : stNewInstall m p with
  | true =>
    cases hc : p.candidate with
    | some cv =>
      by_cases hco : p.name ∈ reqI
      · simp [collectStep, hni, hc, hco, rowExtraInstalled, rowExtraRemoved,
          rowUpgraded, rowNewInstalled, rowRemoved, rowReinstall,
          dlContrib, instContrib, candSize, candInstSize, uadd_eq]
      · simp [collectStep, hni, hc, hco, rowExtraInstalled, rowExtraRemoved,
          rowUpgraded, rowNewInstalled, rowRemoved, rowReinstall,
          dlContrib, instContrib, candSize, candInstSize, uadd_eq]
    | none =>
      by_cases hco : p.name ∈ reqI
      · simp [collectStep, hni, hc, hco, rowExtraInstalled, rowExtraRemoved,
          rowUpgraded, rowNewInstalled, rowRemoved, rowReinstall,
          dlContrib, instContrib, candSize, candInstSize,
          Nat.mod_eq_of_lt hins, Nat.mod_eq_of_lt hdl]
      · simp [collectStep, hni, hc, hco, rowExtraInstalled, rowExtraRemoved,
          rowUpgraded, rowNewInstalled, rowRemoved, rowReinstall,
          dlContrib, instContrib, candSize, candInstSize,
          Nat.mod_eq_of_lt hins, Nat.mod_eq_of_lt hdl]
  | false =>
    cases hup : stUpgrade m p with
    | true =>
      have him := stUpgrade_install m p hup
      have hiv : instVerOf m p = p.candidate := instVerOf_of_install m p him
      cases hc : p.candidate with
      | some cv =>
        have hcancel := usub_uadd_cancel acc.install_size cv.instSize hins
        simp only [collectStep, hni, hup, hc, hiv, Bool.false_eq_true,
          if_false, if_true]
        rw [hcancel]
        simp [rowExtraInstalled, rowExtraRemoved, rowUpgraded,
          rowNewInstalled, rowRemoved, rowReinstall, hni, hup,
          dlContrib, instContrib, candSize, hc, uadd_eq,
          Nat.mod_eq_of_lt hins]
      | none =>
        simp [collectStep, hni, hup, hc, rowExtraInstalled, rowExtraRemoved,
          rowUpgraded, rowNewInstalled, rowRemoved, rowReinstall,
          dlContrib, instContrib, candSize,
          Nat.mod_eq_of_lt hins, Nat.mod_eq_of_lt hdl]
    | false =>
      cases hdel : stDelete m p with
      | true =>
        have hiv : instVerOf m p = none := instVerOf_of_delete m p hdel
        by_cases hcr : p.name ∈ reqR
        · simp [collectStep, hni, hup, hdel, hiv, hcr, rowExtraInstalled,
            rowExtraRemoved, rowUpgraded, rowNewInstalled, rowRemoved,
            rowReinstall, dlContrib, instContrib,
            Nat.mod_eq_of_lt hins, Nat.mod_eq_of_lt hdl]
        · simp [collectStep, hni, hup, hdel, hiv, hcr, rowExtraInstalled,
            rowExtraRemoved, rowUpgraded, rowNewInstalled, rowRemoved,
            rowReinstall, dlContrib, instContrib,
            Nat.mod_eq_of_lt hins, Nat.mod_eq_of_lt hdl]
      | false =>
        cases hre : (getMark m p.name).reinstall with
        | true =>
          cases hcur : p.current with
          | some cv =>
            simp [collectStep, hni, hup, hdel, hre, hcur, rowExtraInstalled,
              rowExtraRemoved, rowUpgraded, rowNewInstalled, rowRemoved,
              rowReinstall, dlContrib, instContrib, curSize, uadd_eq,
              Nat.mod_eq_of_lt hins]
          | none =>
            simp [collectStep, hni, hup, hdel, hre, hcur, rowExtraInstalled,
              rowExtraRemoved, rowUpgraded, rowNewInstalled, rowRemoved,
              rowReinstall, dlContrib, instContrib, curSize,
              Nat.mod_eq_of_lt hins, Nat.mod_eq_of_lt hdl]
        | false =>
          simp [collectStep, hni, hup, hdel, hre, rowExtraInstalled,
            rowExtraRemoved, rowUpgraded, rowNewInstalled, rowRemoved,
            rowReinstall, dlContrib, instContrib,
            Nat.mod_eq_of_lt hins, Nat.mod_eq_of_lt hdl]

end Apm

namespace Apm

theorem map_filter_cons (f : Pkg → Bool) (p : Pkg) (rest : List Pkg) :
    (((p :: rest).filter f).map Pkg.name) =
      (if f p then [p.name] else []) ++ ((rest.filter f).map Pkg.name) := by
  by_cases h : f p = true
  · simp [List.filter_cons, h]
  · simp [List.filter_cons, h]

/-- The collector's fold, characterized over any accumulator. -/
theorem collect_go (reqI reqR : List Name) (m : Marks) (db : Db)
    (acc : Changes) (hdl : acc.download_size < M64)
    (hins : acc.install_size < M64) :
    db.foldl (collectStep reqI reqR m) acc =
      { extra_installed := acc.extra_installed ++
          ((db.filter (rowExtraInstalled reqI m)).map Pkg.name),
        extra_removed := acc.extra_removed ++
          ((db.filter (rowExtraRemoved reqR m)).map Pkg.name),
        upgraded := acc.upgraded ++ ((db.filter (rowUpgraded m)).map Pkg.name),
        new_installed := acc.new_installed ++
          ((db.filter (rowNewInstalled m)).map Pkg.name),
        removed := acc.removed ++ ((db.filter (rowRemoved m)).map Pkg.name),
        download_size := (acc.download_size + (db.map (dlContrib m)).sum) % M64,
        install_size := (acc.install_size + (db.map (instContrib m)).sum) % M64 } := by
  induction db generalizing acc with
  | nil =>
    cases acc
    simp [Nat.mod_eq_of_lt hdl, Nat.mod_eq_of_lt hins]
  | cons p rest ih =>
    rw [List.foldl_cons, collectStep_eq reqI reqR m acc p hdl hins]
    rw [ih _ (Nat.mod_lt _ M64_pos) (Nat.mod_lt _ M64_pos)]
    simp only [map_filter_cons, List.map_cons, List.sum_cons, mod_add_assoc,
      List.append_assoc]

/-- The collector in closed form: each bucket is the name list of its row
filter, and the sizes are the wrapped sums of the per-package
contributions. -/
theorem collect_closed_form (reqI reqR : List Name) (m : Marks) (db : Db) :
    collect_package_changes reqI reqR m db =
      { extra_installed := (db.filter (rowExtraInstalled reqI m)).map Pkg.name,
        extra_removed := (db.filter (rowExtraRemoved reqR m)).map Pkg.name,
        upgraded := (db.filter (rowUpgraded m)).map Pkg.name,
        new_installed := (db.filter (rowNewInstalled m)).map Pkg.name,
        removed := (db.filter (rowRemoved m)).map Pkg.name,
        download_size := ((db.map (dlContrib m)).sum) % M64,
        install_size := ((db.map (instContrib m)).sum) % M64 } := by
  unfold collect_package_changes
  rw [collect_go reqI reqR m db {} (by unfold M64; positivity)
    (by unfold M64; positivity)]
  simp

end Apm

namespace Apm

/-- Claim C3 counterexample: the claim states that an Upgrade row changes
install_size by candidate installed-size minus the currently-installed
version's installed-size, and that a Delete row reduces install_size by
the currently-installed version's installed-size.  In the code the
subtracted quantity is st.InstallVer, which under an install mark is the
candidate itself (so the upgrade delta is zero, not 300 - 100 = 200), and
under a delete mark is null (so nothing is ever subtracted for removals:
the result stays 0 rather than dropping by 100). -/
theorem claim_C3_collect_sizes_counterexample :
    (collect_package_changes [['q']] [] fxMarksQ [fxPkgQ]).upgraded = [['q']] ∧
    (collect_package_changes [['q']] [] fxMarksQ [fxPkgQ]).download_size = 50 ∧
    (collect_package_changes [['q']] [] fxMarksQ [fxPkgQ]).install_size = 0 ∧
    fxCv2.instSize - fxCv1.instSize = 200 ∧ (0 : Nat) ≠ 200 ∧
    (collect_package_changes [] [['r']] fxMarksR [fxPkgR]).removed = [['r']] ∧
    (collect_package_changes [] [['r']] fxMarksR [fxPkgR]).install_size = 0 ∧
    (collect_package_changes [] [['r']] fxMarksR [fxPkgR]).install_size ≠
      usub 0 fxVr.instSize := by
  refine ⟨rfl, rfl, rfl, rfl, by decide, rfl, rfl, ?_⟩
  intro h
  have h2 : (0 : Nat) = usub 0 100 := h
  rw [show usub 0 100 = 2 ^ 64 - 100 from rfl] at h2
  omega

/-- Claim C3 as amended: the collector's single scan buckets NewInstall
rows into new_installed (extra_installed exactly when not requested),
adding candidate size and installed-size; Upgrade rows into upgraded,
adding candidate download size but a zero net install-size delta (the
subtracted install version is the candidate itself); Delete rows into
removed (extra_removed exactly when not requested) without changing
install_size (their install version is null); pure ReInstall rows into
new_installed adding the current version's size; and it mutates no mark
state.  The editor scenario of the claim holds as stated. -/
theorem claim_C3_collect_amended (reqI reqR : List Name) (m : Marks) (db : Db) :
    collect_package_changes reqI reqR m db =
      { extra_installed := (db.filter (rowExtraInstalled reqI m)).map Pkg.name,
        extra_removed := (db.filter (rowExtraRemoved reqR m)).map Pkg.name,
        upgraded := (db.filter (rowUpgraded m)).map Pkg.name,
        new_installed := (db.filter (rowNewInstalled m)).map Pkg.name,
        removed := (db.filter (rowRemoved m)).map Pkg.name,
        download_size := ((db.map (dlContrib m)).sum) % M64,
        install_size := ((db.map (instContrib m)).sum) % M64 } ∧
    (plan_change_internal extDefault fxDbEd [fxEName] [] false false false
        []).result =
      .ok { extra_installed := [], extra_removed := [], upgraded := [],
            new_installed := [fxEName], removed := [],
            download_size := 1000, install_size := 4000 } := by
  exact ⟨collect_closed_form reqI reqR m db, rfl⟩

/-- Claim C10: a package whose ReInstall flag is set and which is not
classified NewInstall, Upgrade or Delete is reported in new_installed,
its current version's size is added to download_size, and install_size
and every other bucket are untouched. -/
theorem claim_C10_reinstall_reported_as_new_install
    (reqI reqR : List Name) (m : Marks) (l1 l2 : List Pkg) (p : Pkg) (cv : Ver)
    (hflag : (getMark m p.name).reinstall = true)
    (hni : stNewInstall m p = false) (hup : stUpgrade m p = false)
    (hdel : stDelete m p = false) (hcur : p.current = some cv) :
    (collect_package_changes reqI reqR m (l1 ++ p :: l2)).new_installed =
      ((l1.filter (rowNewInstalled m)).map Pkg.name) ++
        p.name :: ((l2.filter (rowNewInstalled m)).map Pkg.name) ∧
    (collect_package_changes reqI reqR m (l1 ++ p :: l2)).download_size =
      uadd (collect_package_changes reqI reqR m (l1 ++ l2)).download_size
        cv.size ∧
    (collect_package_changes reqI reqR m (l1 ++ p :: l2)).install_size =
      (collect_package_changes reqI reqR m (l1 ++ l2)).install_size ∧
    (collect_package_changes reqI reqR m (l1 ++ p :: l2)).upgraded =
      (collect_package_changes reqI reqR m (l1 ++ l2)).upgraded ∧
    (collect_package_changes reqI reqR m (l1 ++ p :: l2)).removed =
      (collect_package_changes reqI reqR m (l1 ++ l2)).removed ∧
    (collect_package_changes reqI reqR m (l1 ++ p :: l2)).extra_installed =
      (collect_package_changes reqI reqR m (l1 ++ l2)).extra_installed ∧
    (collect_package_changes reqI reqR m (l1 ++ p :: l2)).extra_removed =
      (collect_package_changes reqI reqR m (l1 ++ l2)).extra_removed := by
  have hre : rowReinstall m p = true := by
    unfold rowReinstall
    rw [hni, hup, hdel, hflag]
    rfl
  have hnewrow : rowNewInstalled m p = true := by
    unfold rowNewInstalled
    rw [hni, hre]
    rfl
  have huprow : rowUpgraded m p = false := by
    unfold rowUpgraded
    rw [hup]
    simp
  have hremrow : rowRemoved m p = false := by
    unfold rowRemoved
    rw [hdel]
    simp
  have hxirow : rowExtraInstalled reqI m p = false := by
    unfold rowExtraInstalled
    rw [hni]
    rfl
  have hxrrow : rowExtraRemoved reqR m p = false := by
    unfold rowExtraRemoved
    rw [hremrow]
    rfl
  have hdlc : dlContrib m p = cv.size := by
    unfold dlContrib
    rw [hni, huprow, hremrow, hre]
    simp [curSize, hcur]
  have hinc : instContrib m p = 0 := by
    unfold instContrib
    rw [hni]
    rfl
  rw [collect_closed_form, collect_closed_form]
  refine ⟨?_, ?_, ?_, ?_, ?_, ?_, ?_⟩
  · simp [List.filter_append, List.filter_cons, hnewrow]
  · simp only [List.map_append, List.map_cons, List.sum_append, List.sum_cons,
      hdlc, uadd_eq, Nat.mod_add_mod]
    congr 1
    omega
  · simp only [List.map_append, List.map_cons, List.sum_append, List.sum_cons,
      hinc, Nat.zero_add]
  · simp [List.filter_append, List.filter_cons, huprow]
  · simp [List.filter_append, List.filter_cons, hremrow]
  · simp [List.filter_append, List.filter_cons, hxirow]
  · simp [List.filter_append, List.filter_cons, hxrrow]

/-- Concrete instance of claim C10's theorem: a lone reinstall-flagged
installed package of current size 77. -/
theorem claim_C10_reinstall_witness :
    (collect_package_changes [] [] fxMarksW [fxPkgW]).new_installed =
      [['w']] ∧
    (collect_package_changes [] [] fxMarksW [fxPkgW]).download_size = 77 ∧
    (collect_package_changes [] [] fxMarksW [fxPkgW]).install_size = 0 := by
  have h := claim_C10_reinstall_reported_as_new_install [] [] fxMarksW [] []
    fxPkgW fxVw (by decide) (by decide) (by decide) (by decide) (by decide)
  refine ⟨h.1.trans (by decide), h.2.1.trans (by decide), h.2.2.1.trans (by decide)⟩

end Apm

namespace Apm

/-- Updating a name's mark and reading it back applies the update to the
previously observed state. -/
theorem getMark_setMark (m : Marks) (n : Name) (f : PState → PState) :
    getMark (setMark m n f) n = f (getMark m n) := by
  induction m with
  | nil =>
    simp [setMark, getMark, List.find?]
  | cons e t ih =>
    by_cases h : e.1 = n
    · simp [setMark, h, getMark, List.find?]
    · simp only [setMark]
      rw [if_neg (by exact fun hh => h (by cases e; exact hh))]
      simp only [getMark, List.find?] at ih ⊢
      rw [show (decide (e.1 = n)) = false from by simp [h]]
      exact ih

end Apm

namespace Apm

/-- Claim C5: a removal requirement naming a virtual package (the
directly-found record has no installed version) with exactly two
installed providers matching the constraint fails the plan call with the
ambiguous-virtual-package error (APT_ERROR_DEPENDENCY_BROKEN, "Virtual
package ... has multiple installed providers") listing exactly those two
provider names; only packages whose currently installed version supplies
the name are considered. -/
theorem claim_C5_ambiguous_virtual_removal (E : Ext) (db : Db) (raw : Name)
    (vp p1 p2 : Pkg) (purge rd apply : Bool) (m0 : Marks)
    (hrpm : is_rpm_file raw = false)
    (hfind : findPkg db (parse_requirement raw).name = some vp)
    (hvirt : vp.current = none)
    (hfilter : db.filter (removeProvHit E (parse_requirement raw)) = [p1, p2])
    (hne : p1.name ≠ p2.name) :
    (plan_change_internal E db [] [raw] purge rd apply m0).result =
      .error ⟨eDependencyBroken,
        .multipleProviders (parse_requirement raw).name [p1.name, p2.name]⟩ ∧
    ([p1.name, p2.name] : List Name).toFinset =
      ({p1.name, p2.name} : Finset Name) ∧
    (∀ q : Pkg, q.current = none →
      removeProvHit E (parse_requirement raw) q = false) := by
  refine ⟨?_, by simp, ?_⟩
  · have hfr : find_remove_package E db (parse_requirement raw) = .ok vp := by
      unfold find_remove_package
      rw [hfind]
    have hrv : resolve_virtual_remove_package E db (parse_requirement raw) vp =
        .error ⟨eDependencyBroken,
          .multipleProviders (parse_requirement raw).name [p1.name, p2.name]⟩ := by
      unfold resolve_virtual_remove_package
      rw [hvirt, hfilter]
      rfl
    have hrem : process_package_removals E db purge [raw] m0 [] [] =
        (.error ⟨eDependencyBroken,
          .multipleProviders (parse_requirement raw).name [p1.name, p2.name]⟩,
         m0, [(parse_requirement raw).name], []) := by
      simp only [process_package_removals, hfr, hrv, insertName]
    simp only [plan_change_internal, List.any_nil, List.any_cons, hrpm,
      Bool.or_self, Bool.or_false, Bool.false_or, Bool.false_eq_true,
      if_false, process_package_installs, hrem]
  · intro q hq
    unfold removeProvHit
    rw [hq]

/-- Concrete instance of claim C5's theorem: removing the virtual name
"m" provided by the installed packages "send" and "post". -/
theorem claim_C5_ambiguous_virtual_removal_witness :
    (plan_change_internal extDefault fxDbC5 [] [['m']] false false false
        []).result =
      .error ⟨eDependencyBroken,
        .multipleProviders ['m'] [fxSend.name, fxPost.name]⟩ := by
  have h := (claim_C5_ambiguous_virtual_removal extDefault fxDbC5 [['m']].head!
    fxVirtM fxSend fxPost false false false [] (by decide) (by decide)
    (by decide) (by decide) (by decide)).1
  exact h

/-- Claim C8: a reinstall request given as a plain package name fails
with PackageNotFound when the resolved package is not installed, fails
with DownloadFailed when the installed version is not downloadable, and
otherwise sets the ReInstall flag, which is distinct from an Install
mark: the mark mode is left untouched. -/
theorem claim_C8_reinstall_plain_name (E : Ext) (db : Db) (raw : Name)
    (p : Pkg) (m : Marks)
    (hrpm : is_rpm_file raw = false)
    (hfind : findPkg db (parse_requirement raw).name = some p) :
    (p.current = none →
      process_package_reinstalls E db [raw] m [] =
        (.error ⟨ePackageNotFound, .notInstalledReinstall p.name⟩, m, [])) ∧
    (∀ cv : Ver, p.current = some cv → cv.downloadable = false →
      process_package_reinstalls E db [raw] m [] =
        (.error ⟨eDownloadFailed, .reinstallNotDownloadable p.name cv.verStr⟩,
         m, [])) ∧
    (∀ cv : Ver, p.current = some cv → cv.downloadable = true →
      process_package_reinstalls E db [raw] m [] =
        (.ok (), setReInstall m p.name true, [p.name]) ∧
      (getMark (setReInstall m p.name true) p.name).mode =
        (getMark m p.name).mode ∧
      (getMark (setReInstall m p.name true) p.name).reinstall = true) := by
  have hfi : find_install_package E db (parse_requirement raw) = .ok p := by
    unfold find_install_package
    rw [hfind]
  refine ⟨?_, ?_, ?_⟩
  · intro hcur
    simp only [process_package_reinstalls, hrpm, Bool.false_eq_true, if_false,
      hfi, hcur]
  · intro cv hcur hdl
    simp only [process_package_reinstalls, hrpm, Bool.false_eq_true, if_false,
      hfi, hcur, hdl, Bool.not_false, Bool.not_true, Bool.true_and, if_true]
  · intro cv hcur hdl
    refine ⟨?_, ?_, ?_⟩
    · simp only [process_package_reinstalls, hrpm, Bool.false_eq_true,
        if_false, hfi, hcur, hdl, Bool.not_false, Bool.not_true,
        Bool.true_and, insertName]
    · unfold setReInstall
      rw [getMark_setMark]
    · unfold setReInstall
      rw [getMark_setMark]

/-- Concrete instances of claim C8's theorem: reinstalling a
not-installed package "y", a non-downloadable installed package "x", and
a downloadable installed package "z". -/
theorem claim_C8_reinstall_plain_name_witness :
    process_package_reinstalls extDefault fxDbC8 [['y']] [] [] =
      (.error ⟨ePackageNotFound, .notInstalledReinstall ['y']⟩, [], []) ∧
    process_package_reinstalls extDefault fxDbC8 [['x']] [] [] =
      (.error ⟨eDownloadFailed, .reinstallNotDownloadable ['x'] ['1']⟩,
       [], []) ∧
    process_package_reinstalls extDefault fxDbC8 [['z']] [] [] =
      (.ok (), setReInstall [] ['z'] true, [['z']]) := by
  refine ⟨?_, ?_, ?_⟩
  · exact (claim_C8_reinstall_plain_name extDefault fxDbC8 ['y'] fxPkgY []
      (by decide) (by decide)).1 rfl
  · exact (claim_C8_reinstall_plain_name extDefault fxDbC8 ['x'] fxPkgX []
      (by decide) (by decide)).2.1 fxVnd rfl rfl
  · exact ((claim_C8_reinstall_plain_name extDefault fxDbC8 ['z'] fxPkgZ []
      (by decide) (by decide)).2.2 fxVz rfl rfl).1

end Apm

namespace Apm

theorem findSome?_eq_none_iff {α β : Type} (f : α → Option β) (l : List α) :
    l.findSome? f = none ↔ ∀ a ∈ l, f a = none := by
  induction l with
  | nil => simp
  | cons x xs ih =>
    cases h : f x with
    | some b => simp [List.findSome?_cons, h]
    | none => simp [List.findSome?_cons, h, ih]

theorem exists_of_findSome?_some {α β : Type} {f : α → Option β}
    {l : List α} {b : β} (h : l.findSome? f = some b) :
    ∃ a, a ∈ l ∧ f a = some b := by
  induction l with
  | nil => simp [List.findSome?] at h
  | cons x xs ih =>
    cases hx : f x with
    | some c =>
      simp only [List.findSome?_cons, hx] at h
      exact ⟨x, by simp, hx.trans h⟩
    | none =>
      simp only [List.findSome?_cons, hx] at h
      obtain ⟨a, ha, hfa⟩ := ih h
      exact ⟨a, by simp [ha], hfa⟩

theorem findSome?_isSome_of_mem {α β : Type} {f : α → Option β}
    {l : List α} {a : α} (ha : a ∈ l) (hf : (f a).isSome = true) :
    (l.findSome? f).isSome = true := by
  induction l with
  | nil => cases ha
  | cons x xs ih =>
    cases hx : f x with
    | some c => simp [List.findSome?_cons, hx]
    | none =>
      rw [List.findSome?_cons, hx]
      rcases List.mem_cons.mp ha with h1 | h2
      · subst h1
        rw [hx] at hf
        simp at hf
      · exact ih h2

/-- The per-edge conflict hit, fully characterized. -/
theorem conflictEdgeHit_some_iff (E : Ext) (db : Db) (pkgs : List Pkg)
    (p1 : Pkg) (d : DepType × DepAlt) (pr : Name × Name) :
    conflictEdgeHit E db pkgs p1 d = some pr ↔
      d.1 = DepType.conflicts ∧
      ∃ tp, findPkg db d.2.target = some tp ∧
        (∃ p2 ∈ pkgs, p2.name ≠ p1.name ∧ p2.name = tp.name) ∧
        (∃ tv, tp.candidate = some tv ∧ checkDepV E tv.verStr d.2 = true) ∧
        pr = (p1.name, tp.name) := by
  unfold conflictEdgeHit
  by_cases h1 : d.1 = DepType.conflicts
  case neg => simp [h1]
  rw [if_pos h1]
  split
  next h2 =>
    refine iff_of_false (by simp) ?_
    rintro ⟨-, tp', htp', -, -, -⟩
    rw [h2] at htp'
    cases htp'
  next tp h2 =>
    by_cases h3 :
        (pkgs.any (fun p2 => decide (p2.name ≠ p1.name ∧ p2.name = tp.name))) = true
    case neg =>
      rw [if_neg h3]
      refine iff_of_false (by simp) ?_
      rintro ⟨-, tp', htp', ⟨p2, hp2m, hne2, hpe⟩, -, -⟩
      rw [h2] at htp'
      injection htp' with hh
      subst hh
      exact h3 (List.any_eq_true.mpr ⟨p2, hp2m, decide_eq_true ⟨hne2, hpe⟩⟩)
    case pos =>
      rw [if_pos h3]
      split
      next h4 =>
        refine iff_of_false (by simp) ?_
        rintro ⟨-, tp', htp', -, ⟨tv, htv, -⟩, -⟩
        rw [h2] at htp'
        injection htp' with hh
        subst hh
        rw [h4] at htv
        cases htv
      next tv h4 =>
        by_cases h5 : checkDepV E tv.verStr d.2 = true
        · rw [if_pos h5]
          constructor
          · intro hh
            injection hh with hh
            obtain ⟨p2, hp2m, hp2⟩ := List.any_eq_true.mp h3
            exact ⟨h1, tp, h2, ⟨p2, hp2m, of_decide_eq_true hp2⟩,
              ⟨tv, h4, h5⟩, hh.symm⟩
          · rintro ⟨-, tp', htp', -, -, hpr⟩
            rw [h2] at htp'
            injection htp' with hh
            subst hh
            rw [hpr]
        · rw [if_neg h5]
          refine iff_of_false (by simp) ?_
          rintro ⟨-, tp', htp', -, ⟨tv', htv', hc⟩, -⟩
          rw [h2] at htp'
          injection htp' with hh
          subst hh
          rw [h4] at htv'
          injection htv' with hh2
          subst hh2
          exact h5 hc

end Apm

namespace Apm

/-- Claim C6: the conflict check succeeds outright with fewer than two
requested installs; it fails exactly when some requested package's
candidate version carries a Conflicts edge whose target is another
requested package and whose constraint is satisfied by that target's
candidate version (so conflicts only among non-requested packages are
never reported); every failure names a requested package and the
requested conflict target; and in the planner the failure is returned
as-is with the post-marking mark state, before the preseeding and
solver stages run, for every solver collaborator. -/
theorem claim_C6_conflict_check_characterization (E : Ext) (db : Db)
    (reqI : List Name) :
    (reqI.length < 2 → check_package_conflicts E db reqI = .ok ()) ∧
    ((∃ e, check_package_conflicts E db reqI = .error e) ↔
      (2 ≤ reqI.length ∧
       ∃ p1, p1 ∈ reqI.filterMap (findPkg db) ∧
         ∃ v1, p1.candidate = some v1 ∧
           ∃ d, d ∈ flatDeps v1 ∧ d.1 = DepType.conflicts ∧
             ∃ tp, findPkg db d.2.target = some tp ∧
               (∃ p2 ∈ reqI.filterMap (findPkg db),
                 p2.name ≠ p1.name ∧ p2.name = tp.name) ∧
               ∃ tv, tp.candidate = some tv ∧
                 checkDepV E tv.verStr d.2 = true)) ∧
    (∀ e, check_package_conflicts E db reqI = .error e →
      ∃ p1 tp : Pkg,
        e = ⟨eDependencyBroken, .conflictingPackages p1.name tp.name⟩ ∧
        p1 ∈ reqI.filterMap (findPkg db) ∧
        ∃ p2 ∈ reqI.filterMap (findPkg db),
          p2.name ≠ p1.name ∧ p2.name = tp.name) ∧
    (∀ (installs removes : List Name) (purge rd apply : Bool)
        (m0 m1 m2 : Marks) (reqR : List Name) (tgts : List (Name × Name))
        (e : AptError),
      installs.any is_rpm_file = false → removes.any is_rpm_file = false →
      process_package_installs E db installs m0 [] = (.ok (), m1, reqI) →
      process_package_removals E db purge removes m1 [] [] =
        (.ok (), m2, reqR, tgts) →
      check_package_conflicts E db reqI = .error e →
      plan_change_internal E db installs removes purge rd apply m0 =
        { result := .error e, marks := m2 }) := by
  refine ⟨?_, ⟨?_, ?_⟩, ?_, ?_⟩
  · intro hl
    simp only [check_package_conflicts, if_pos hl]
  · rintro ⟨e, he⟩
    simp only [check_package_conflicts] at he
    by_cases hl : reqI.length < 2
    · rw [if_pos hl] at he
      simp at he
    · rw [if_neg hl] at he
      split at he
      next pr hfs =>
        obtain ⟨p1, hp1m, hph⟩ := exists_of_findSome?_some hfs
        unfold conflictHit at hph
        split at hph
        next => cases hph
        next v1 hcand =>
          obtain ⟨d, hdm, hde⟩ := exists_of_findSome?_some hph
          rw [conflictEdgeHit_some_iff] at hde
          obtain ⟨h1, tp, h2, hex, ⟨tv, h4, h5⟩, hpr⟩ := hde
          exact ⟨by omega, p1, hp1m, v1, hcand, d, hdm, h1, tp, h2, hex,
            tv, h4, h5⟩
      next hfs => simp at he
  · rintro ⟨hlen, p1, hp1m, v1, hc1, d, hdm, h1, tp, h2, hex, tv, h4, h5⟩
    have hedge : conflictEdgeHit E db (reqI.filterMap (findPkg db)) p1 d =
        some (p1.name, tp.name) :=
      (conflictEdgeHit_some_iff E db _ p1 d _).mpr
        ⟨h1, tp, h2, hex, ⟨tv, h4, h5⟩, rfl⟩
    have hhit : (conflictHit E db (reqI.filterMap (findPkg db)) p1).isSome =
        true := by
      unfold conflictHit
      rw [hc1]
      exact findSome?_isSome_of_mem hdm (by rw [hedge]; rfl)
    have hfs := findSome?_isSome_of_mem hp1m hhit
    obtain ⟨pr, hpr⟩ := Option.isSome_iff_exists.mp hfs
    refine ⟨⟨eDependencyBroken, .conflictingPackages pr.1 pr.2⟩, ?_⟩
    simp only [check_package_conflicts, if_neg (by omega : ¬reqI.length < 2),
      hpr]
  · intro e he
    simp only [check_package_conflicts] at he
    by_cases hl : reqI.length < 2
    · rw [if_pos hl] at he
      simp at he
    · rw [if_neg hl] at he
      split at he
      next pr hfs =>
        obtain ⟨p1, hp1m, hph⟩ := exists_of_findSome?_some hfs
        unfold conflictHit at hph
        split at hph
        next => cases hph
        next v1 hcand =>
          obtain ⟨d, hdm, hde⟩ := exists_of_findSome?_some hph
          rw [conflictEdgeHit_some_iff] at hde
          obtain ⟨h1, tp, h2, hex, ⟨tv, h4, h5⟩, hpr⟩ := hde
          injection he with he
          refine ⟨p1, tp, ?_, hp1m, hex⟩
          rw [← he, hpr]
      next hfs => simp at he
  · intro installs removes purge rd apply m0 m1 m2 reqR tgts e
      hrpm1 hrpm2 hi hr he
    simp only [plan_change_internal, hrpm1, hrpm2, Bool.or_self, hi, hr, he,
      Bool.false_eq_true, if_false]

end Apm

namespace Apm

theorem ltName_asymm (a b : Name) (h : ltName a b = true) :
    ltName b a = false := by
  induction a generalizing b with
  | nil =>
    cases b with
    | nil => simp [ltName] at h
    | cons y ys => rfl
  | cons x xs ih =>
    cases b with
    | nil => simp [ltName] at h
    | cons y ys =>
      unfold ltName at h ⊢
      by_cases h1 : x.toNat < y.toNat
      · rw [if_neg (by omega), if_pos h1]
      · by_cases h2 : y.toNat < x.toNat
        · rw [if_neg h1, if_pos h2] at h
          exact absurd h (by simp)
        · rw [if_neg h1, if_neg h2] at h
          rw [if_neg h2, if_neg h1]
          exact ih ys h

theorem ltName_total (a b : Name) (hne : a ≠ b) :
    ltName a b = true ∨ ltName b a = true := by
  induction a generalizing b with
  | nil =>
    cases b with
    | nil => exact absurd rfl hne
    | cons y ys => left; rfl
  | cons x xs ih =>
    cases b with
    | nil => right; rfl
    | cons y ys =>
      unfold ltName
      by_cases h1 : x.toNat < y.toNat
      · left
        rw [if_pos h1]
      · by_cases h2 : y.toNat < x.toNat
        · right
          rw [if_pos h2]
        · have hx : x = y := by
            have h3 : x.toNat = y.toNat := by omega
            exact Char.eq_of_val_eq (UInt32.ext h3)
          subst hx
          have hne2 : xs ≠ ys := fun hh => hne (by rw [hh])
          rcases ih ys hne2 with h | h
          · left
            rw [if_neg h1, if_neg h2]
            exact h
          · right
            rw [if_neg h1, if_neg h1]
            exact h

end Apm

namespace Apm

theorem insertName_pair (a b : Name) (hne : b ≠ a) :
    insertName b [a] = if ltName b a then [b, a] else [a, b] := by
  unfold insertName
  rw [if_neg hne]
  by_cases h : ltName b a = true
  · rw [if_pos h, if_pos h]
  · rw [if_neg h, if_neg h]
    rfl

theorem insertName_pair_comm (a b : Name) (hne : a ≠ b) :
    insertName b (insertName a []) = insertName a (insertName b []) := by
  show insertName b [a] = insertName a [b]
  rw [insertName_pair a b (fun h => hne h.symm), insertName_pair b a hne]
  rcases ltName_total a b hne with h | h
  · have h2 := ltName_asymm a b h
    rw [if_neg (by simp [h2]), if_pos h]
  · have h2 := ltName_asymm b a h
    rw [if_pos h, if_neg (by simp [h2])]

theorem mem_insertName (n x : Name) (l : List Name) :
    n ∈ insertName x l ↔ n = x ∨ n ∈ l := by
  induction l with
  | nil =>
    show n ∈ [x] ↔ _
    simp
  | cons y ys ih =>
    unfold insertName
    by_cases h1 : x = y
    · subst h1
      rw [if_pos rfl]
      simp only [List.mem_cons]
      constructor
      · intro h
        exact Or.inr h
      · rintro (h | h)
        · exact Or.inl h
        · exact h
    · rw [if_neg h1]
      by_cases h2 : ltName x y = true
      · rw [if_pos h2]
        simp only [List.mem_cons]
      · rw [if_neg h2]
        simp only [List.mem_cons, ih]
        tauto

theorem length_insertName_of_not_mem (x : Name) (l : List Name) (h : x ∉ l) :
    (insertName x l).length = l.length + 1 := by
  induction l with
  | nil => rfl
  | cons y ys ih =>
    have hxy : x ≠ y := fun hh => h (by simp [hh])
    unfold insertName
    rw [if_neg hxy]
    by_cases h2 : ltName x y = true
    · rw [if_pos h2]
      rfl
    · rw [if_neg h2]
      have : x ∉ ys := fun hh => h (by simp [hh])
      simp [List.length_cons, ih this]

theorem pkgVers_ne_nil_of_candidate (p : Pkg) (v : Ver)
    (h : p.candidate = some v) : ¬(pkgVers p = []) := by
  unfold pkgVers
  rw [h]
  cases p.current with
  | none => simp
  | some c =>
    by_cases hc : c = v
    · simp [hc]
    · simp [hc]

theorem resolve_virtual_ok_of_candidate (E : Ext) (db : Db)
    (req : RequirementSpec) (p : Pkg) (v : Ver) (h : p.candidate = some v) :
    resolve_virtual_package E db req p = .ok p := by
  unfold resolve_virtual_package
  rw [if_neg]
  rintro ⟨h1, -⟩
  exact pkgVers_ne_nil_of_candidate p v h h1

theorem processInstalls_pair (E : Ext) (db : Db) (a b : Pkg) (va vb : Ver)
    (m0 : Marks)
    (hops1 : ∀ c ∈ a.name, isOpChar c = false)
    (hops2 : ∀ c ∈ b.name, isOpChar c = false)
    (hfa : findPkg db a.name = some a) (hfb : findPkg db b.name = some b)
    (hca : a.candidate = some va) (hcb : b.candidate = some vb) :
    process_package_installs E db [a.name, b.name] m0 [] =
      (.ok (), installStepMarks E db b (installStepMarks E db a m0),
       insertName b.name (insertName a.name [])) := by
  have hpa := parse_requirement_bare a.name hops1
  have hpb := parse_requirement_bare b.name hops2
  have hfia : find_install_package E db (parse_requirement a.name) = .ok a := by
    rw [hpa]
    unfold find_install_package
    simp only [hfa]
  have hfib : find_install_package E db (parse_requirement b.name) = .ok b := by
    rw [hpb]
    unfold find_install_package
    simp only [hfb]
  have hra : resolve_virtual_package E db (parse_requirement a.name) a =
      .ok a := resolve_virtual_ok_of_candidate E db _ a va hca
  have hrb : resolve_virtual_package E db (parse_requirement b.name) b =
      .ok b := resolve_virtual_ok_of_candidate E db _ b vb hcb
  simp only [process_package_installs, hfia, hra, hfib, hrb, installStepMarks]

end Apm

namespace Apm

/-- Claim C7: when package a's candidate version conflicts with requested
package b, planning [a, b] and planning [b, a] on the same initial state
fail with the same result — the same conflict error naming, as a set, the
two requested packages — for every solver collaborator (the failure
precedes resolution). -/
theorem claim_C7_conflict_order_independent (E : Ext) (db : Db)
    (a b : Pkg) (va vb : Ver) (purge rd apply : Bool) (m0 : Marks)
    (hops1 : ∀ c ∈ a.name, isOpChar c = false)
    (hops2 : ∀ c ∈ b.name, isOpChar c = false)
    (hrpm1 : is_rpm_file a.name = false) (hrpm2 : is_rpm_file b.name = false)
    (hfa : findPkg db a.name = some a) (hfb : findPkg db b.name = some b)
    (hca : a.candidate = some va) (hcb : b.candidate = some vb)
    (hne : a.name ≠ b.name)
    (hconf : ∃ d ∈ flatDeps va, d.1 = DepType.conflicts ∧
      d.2.target = b.name ∧ checkDepV E vb.verStr d.2 = true) :
    (plan_change_internal E db [a.name, b.name] [] purge rd apply m0).result =
      (plan_change_internal E db [b.name, a.name] [] purge rd apply m0).result ∧
    ∃ n1 n2,
      (plan_change_internal E db [a.name, b.name] [] purge rd apply
          m0).result =
        .error ⟨eDependencyBroken, .conflictingPackages n1 n2⟩ ∧
      ({n1, n2} : Finset Name) = {a.name, b.name} := by
  obtain ⟨d, hdm, hd1, hdt, hdc⟩ := hconf
  have hPIab := processInstalls_pair E db a b va vb m0 hops1 hops2 hfa hfb
    hca hcb
  have hPIba := processInstalls_pair E db b a vb va m0 hops2 hops1 hfb hfa
    hcb hca
  have hcomm := insertName_pair_comm a.name b.name hne
  rw [← hcomm] at hPIba
  have hmem_a : a.name ∈ insertName b.name (insertName a.name []) := by
    rw [mem_insertName]
    right
    show a.name ∈ [a.name]
    simp
  have hmem_b : b.name ∈ insertName b.name (insertName a.name []) := by
    rw [mem_insertName]
    left
    rfl
  have hlen : (insertName b.name (insertName a.name [])).length = 2 := by
    rw [length_insertName_of_not_mem]
    · rfl
    · show b.name ∉ [a.name]
      simp
      exact fun h => hne h.symm
  have hamem : a ∈ (insertName b.name (insertName a.name [])).filterMap
      (findPkg db) := List.mem_filterMap.mpr ⟨a.name, hmem_a, hfa⟩
  have hbmem : b ∈ (insertName b.name (insertName a.name [])).filterMap
      (findPkg db) := List.mem_filterMap.mpr ⟨b.name, hmem_b, hfb⟩
  have hedge : conflictEdgeHit E db
      ((insertName b.name (insertName a.name [])).filterMap (findPkg db))
      a d = some (a.name, b.name) := by
    apply (conflictEdgeHit_some_iff E db _ a d _).mpr
    refine ⟨hd1, b, ?_, ⟨b, hbmem, fun h => hne h.symm, rfl⟩,
      ⟨vb, hcb, hdc⟩, rfl⟩
    rw [hdt]
    exact hfb
  have hhita : (conflictHit E db
      ((insertName b.name (insertName a.name [])).filterMap (findPkg db))
      a).isSome = true := by
    unfold conflictHit
    rw [hca]
    exact findSome?_isSome_of_mem hdm (by rw [hedge]; rfl)
  have hfsome := findSome?_isSome_of_mem hamem hhita
  obtain ⟨pr, hpr⟩ := Option.isSome_iff_exists.mp hfsome
  have hcheck : check_package_conflicts E db
      (insertName b.name (insertName a.name [])) =
      .error ⟨eDependencyBroken, .conflictingPackages pr.1 pr.2⟩ := by
    simp only [check_package_conflicts, if_neg (by rw [hlen]; omega :
      ¬(insertName b.name (insertName a.name [])).length < 2), hpr]
  obtain ⟨p1, hp1m, hph⟩ := exists_of_findSome?_some hpr
  unfold conflictHit at hph
  split at hph
  next => cases hph
  next v1 hcand =>
    obtain ⟨d2, hdm2, hde2⟩ := exists_of_findSome?_some hph
    rw [conflictEdgeHit_some_iff] at hde2
    obtain ⟨-, tp, htp, ⟨p2, hp2m, hne2, hpe⟩, -, hprv⟩ := hde2
    have hmemc : ∀ q : Pkg,
        q ∈ (insertName b.name (insertName a.name [])).filterMap
          (findPkg db) → q = a ∨ q = b := by
      intro q hq
      obtain ⟨n, hn, hfq⟩ := List.mem_filterMap.mp hq
      rw [mem_insertName] at hn
      rcases hn with h | h
      · subst h
        rw [hfb] at hfq
        injection hfq with hh
        exact Or.inr hh.symm
      · have hn2 : n = a.name := by
          have : n ∈ [a.name] := h
          simpa using this
        subst hn2
        rw [hfa] at hfq
        injection hfq with hh
        exact Or.inl hh.symm
    have hfin : ({pr.1, pr.2} : Finset Name) = {a.name, b.name} := by
      rw [hprv]
      rcases hmemc p1 hp1m with h1 | h1 <;> rcases hmemc p2 hp2m with h2 | h2
      · subst h1; subst h2
        exact absurd rfl hne2
      · subst h1; subst h2
        rw [← hpe]
      · subst h1; subst h2
        rw [← hpe]
        exact Finset.pair_comm _ _
      · subst h1; subst h2
        exact absurd rfl hne2
    have hresab : (plan_change_internal E db [a.name, b.name] [] purge rd
        apply m0).result =
        .error ⟨eDependencyBroken, .conflictingPackages pr.1 pr.2⟩ := by
      simp only [plan_change_internal, List.any_cons, List.any_nil, hrpm1,
        hrpm2, Bool.or_false, Bool.or_self, Bool.false_eq_true, if_false,
        hPIab, process_package_removals, hcheck]
    have hresba : (plan_change_internal E db [b.name, a.name] [] purge rd
        apply m0).result =
        .error ⟨eDependencyBroken, .conflictingPackages pr.1 pr.2⟩ := by
      simp only [plan_change_internal, List.any_cons, List.any_nil, hrpm1,
        hrpm2, Bool.or_false, Bool.or_self, Bool.false_eq_true, if_false,
        hPIba, process_package_removals, hcheck]
    exact ⟨hresab.trans hresba.symm, pr.1, pr.2, hresab, hfin⟩

end Apm

namespace Apm

/-- Concrete instances of claim C6's theorem: the check passes with an
empty request and fails on two requested conflicting packages. -/
theorem claim_C6_conflict_check_witness :
    check_package_conflicts extDefault [] ([] : List Name) = .ok () ∧
    (∃ e, check_package_conflicts extDefault fxDbC7 [['a'], ['b']] =
      .error e) := by
  constructor
  · exact (claim_C6_conflict_check_characterization extDefault [] []).1
      (by decide)
  · exact (claim_C6_conflict_check_characterization extDefault fxDbC7
      [['a'], ['b']]).2.1.mpr
      ⟨by decide, fxCa, by decide, fxVca, rfl,
       (DepType.conflicts, { target := ['b'] }), by decide, rfl,
       fxCb, by decide, ⟨fxCb, by decide, by decide, rfl⟩, fxVcb, rfl, rfl⟩

/-- Concrete instance of claim C7's theorem: both install orders of the
conflicting pair fail with the same named error. -/
theorem claim_C7_conflict_order_independent_witness :
    (plan_change_internal extDefault fxDbC7 [['a'], ['b']] [] false false
        false []).result =
      (plan_change_internal extDefault fxDbC7 [['b'], ['a']] [] false false
        false []).result ∧
    (plan_change_internal extDefault fxDbC7 [['a'], ['b']] [] false false
        false []).result =
      .error ⟨eDependencyBroken, .conflictingPackages ['a'] ['b']⟩ := by
  have h := claim_C7_conflict_order_independent extDefault fxDbC7 fxCa fxCb
    fxVca fxVcb false false false [] (by decide) (by decide) (by decide)
    (by decide) (by decide) (by decide) rfl rfl (by decide)
    ⟨(DepType.conflicts, { target := ['b'] }), by decide, rfl, rfl, rfl⟩
  exact ⟨h.1, rfl⟩

end Apm

namespace Apm

theorem getMark_setMark_ne (m : Marks) (n x : Name) (f : PState → PState)
    (h : x ≠ n) : getMark (setMark m x f) n = getMark m n := by
  induction m with
  | nil =>
    simp [setMark, getMark, List.find?, h]
  | cons e t ih =>
    by_cases he : e.1 = x
    · simp only [setMark]
      rw [if_pos (by cases e; exact he)]
      simp only [getMark, List.find?]
      rw [show (decide (e.1 = n)) = false from by simp [he ▸ h]]
    · simp only [setMark]
      rw [if_neg (by exact fun hh => he (by cases e; exact hh))]
      simp only [getMark, List.find?] at ih ⊢
      by_cases hen : e.1 = n
      · rw [show (decide (e.1 = n)) = true from by simp [hen]]
      · rw [show (decide (e.1 = n)) = false from by simp [hen]]
        exact ih

theorem getMark_markInstall_ne (m : Marks) (n x : Name) (am : AutoMark)
    (h : x ≠ n) : getMark (markInstall m x am) n = getMark m n :=
  getMark_setMark_ne m n x _ h

/-- The corrective pass leaves names outside the requested set
untouched. -/
theorem correctiveRemark_not_mem (db : Db) (l : List Name) (m : Marks)
    (n : Name) (h : n ∉ l) :
    getMark (correctiveRemark db l m) n = getMark m n := by
  unfold correctiveRemark
  induction l generalizing m with
  | nil => rfl
  | cons x xs ih =>
    have hxn : x ≠ n := fun hh => h (by simp [hh])
    have hxs : n ∉ xs := fun hh => h (by simp [hh])
    rw [List.foldl_cons]
    rw [ih _ hxs]
    split
    next => rfl
    next p hf =>
      by_cases hc :
          (!isInstallMode (getMark m x).mode && p.current.isNone) = true
      · rw [if_pos hc]
        exact getMark_markInstall_ne m n x .manual hxn
      · rw [if_neg hc]

/-- The corrective pass on a requested name: re-marked Install(manual)
exactly when it is neither marked install nor currently installed. -/
theorem correctiveRemark_mem (db : Db) (l : List Name) (m : Marks)
    (n : Name) (p : Pkg) (hnd : l.Nodup) (hmem : n ∈ l)
    (hfind : findPkg db n = some p) :
    getMark (correctiveRemark db l m) n =
      (if (!isInstallMode (getMark m n).mode && p.current.isNone) then
        { getMark m n with mode := .install, auto := false }
      else getMark m n) := by
  unfold correctiveRemark
  induction l generalizing m with
  | nil => cases hmem
  | cons x xs ih =>
    rw [List.foldl_cons]
    by_cases hx : n = x
    · subst hx
      have hnxs : n ∉ xs := (List.nodup_cons.mp hnd).1
      have hfr : ∀ m2 : Marks,
          getMark (xs.foldl (fun acc n2 =>
            match findPkg db n2 with
            | none => acc
            | some p2 =>
              if !isInstallMode (getMark acc n2).mode && p2.current.isNone
              then markInstall acc n2 .manual
              else acc) m2) n = getMark m2 n := by
        intro m2
        have := correctiveRemark_not_mem db xs m2 n hnxs
        unfold correctiveRemark at this
        exact this
      rw [hfr]
      split
      next hnone =>
        rw [hfind] at hnone
        cases hnone
      next p2 hsome =>
        rw [hfind] at hsome
        injection hsome with hps
        subst hps
        by_cases hc :
            (!isInstallMode (getMark m n).mode && p.current.isNone) = true
        · rw [if_pos hc, if_pos hc]
          unfold markInstall
          rw [getMark_setMark]
          rfl
        · rw [if_neg hc, if_neg hc]
    · have hmem2 : n ∈ xs := by
        rcases List.mem_cons.mp hmem with h | h
        · exact absurd h hx
        · exact h
      have hnd2 : xs.Nodup := (List.nodup_cons.mp hnd).2
      have hstep : ∀ m2 : Marks, getMark
          (match findPkg db x with
           | none => m2
           | some p2 =>
             if !isInstallMode (getMark m2 x).mode && p2.current.isNone
             then markInstall m2 x .manual
             else m2) n = getMark m2 n := by
        intro m2
        split
        next => rfl
        next p2 hf =>
          by_cases hc :
              (!isInstallMode (getMark m2 x).mode && p2.current.isNone) = true
          · rw [if_pos hc]
            exact getMark_markInstall_ne m2 n x .manual (fun hh => hx hh.symm)
          · rw [if_neg hc]
      rw [ih _ hnd2 hmem2]
      rw [hstep m]

end Apm

namespace Apm

theorem brokenDiag_ne_nil (E : Ext) (db : Db) (m : Marks)
    (h : (db.filter (fun p => E.instBroken db m p.name)).length ≠ 0) :
    brokenDiag E db m ≠ [] := by
  unfold brokenDiag brokenList
  intro hnil
  rw [List.map_eq_nil_iff] at hnil
  have hne : db.filter (fun p => E.instBroken db m p.name) ≠ [] := by
    intro hh
    rw [hh] at h
    exact h rfl
  obtain ⟨p, hp⟩ := List.exists_mem_of_ne_nil _ hne
  obtain ⟨hpdb, hf1⟩ := List.mem_filter.mp hp
  have hp2 : p ∈ db.filter
      (fun p => E.instBroken db m p.name || E.nowBroken db m p.name) :=
    List.mem_filter.mpr ⟨hpdb, by rw [Bool.or_eq_true]; exact Or.inl hf1⟩
  rw [hnil] at hp2
  cases hp2

/-- Claim C4 counterexample: the claim's "fails with DependencyBroken if
and only if broken packages remain after the corrective pass" is not an
equivalence in the code: when the drained lower-layer pending-error state
reports failure (check_apt_errors), the finalizer fails with
APT_ERROR_DEPENDENCY_BROKEN even though no broken package remains. -/
theorem claim_C4_pending_error_counterexample :
    (finalize_dependency_resolution extPend [] [] [] false []).1 =
      .error ⟨eDependencyBroken, .pendingAptErrors⟩ ∧
    (([] : Db).filter (fun p =>
      extPend.instBroken [] (correctiveRemark [] [] []) p.name)).length = 0 := by
  exact ⟨rfl, rfl⟩

/-- Claim C4 as amended: in the finalizer, after the solver returns
(m1, ok, pend), the returned mark state is the corrective pass over m1;
the corrective pass re-marks Install(manual) exactly the requested
installs that are neither marked install nor currently installed; a soft
solver failure is non-fatal (its pending errors are discarded, and with
no broken packages left the finalizer succeeds); the finalizer fails if
and only if broken packages remain after the corrective pass or the
pending lower-layer error state reports failure; and every failure
carries the DependencyBroken code, with the diagnostic naming each broken
package together with the first unmet critical dependency of its
to-be-installed version whenever broken packages remain. -/
theorem claim_C4_finalize_resolution (E : Ext) (db : Db)
    (reqI reqR : List Name) (rd : Bool) (m m1 : Marks) (ok pend : Bool)
    (hnd : reqI.Nodup)
    (hres : E.resolve db m
        (reqI.filter (fun n =>
          (findPkg db n).isSome && isInstallMode (getMark m n).mode))
        (reqR.filter (fun n =>
          (findPkg db n).isSome && isDeleteMode (getMark m n).mode))
        (rd || E.remDependsCfg) = (m1, ok, pend)) :
    (finalize_dependency_resolution E db reqI reqR rd m).2 =
      correctiveRemark db reqI m1 ∧
    (∀ n ∈ reqI, ∀ p, findPkg db n = some p →
      (isInstallMode (getMark m1 n).mode = false → p.current = none →
        getMark (correctiveRemark db reqI m1) n =
          { getMark m1 n with mode := .install, auto := false }) ∧
      (isInstallMode (getMark m1 n).mode = true ∨ p.current ≠ none →
        getMark (correctiveRemark db reqI m1) n = getMark m1 n)) ∧
    (ok = false →
      (db.filter (fun p =>
        E.instBroken db (correctiveRemark db reqI m1) p.name)).length = 0 →
      (finalize_dependency_resolution E db reqI reqR rd m).1 = .ok ()) ∧
    ((∃ e, (finalize_dependency_resolution E db reqI reqR rd m).1 =
        .error e) ↔
      ((db.filter (fun p =>
          E.instBroken db (correctiveRemark db reqI m1) p.name)).length ≠ 0 ∨
        (ok = true ∧ pend = true))) ∧
    (∀ e, (finalize_dependency_resolution E db reqI reqR rd m).1 =
        .error e →
      e.code = eDependencyBroken ∧
      ((db.filter (fun p =>
          E.instBroken db (correctiveRemark db reqI m1) p.name)).length ≠ 0 →
        e.msg = .brokenPackages
          (brokenDiag E db (correctiveRemark db reqI m1)))) := by
  have hred : finalize_dependency_resolution E db reqI reqR rd m =
      (if h0 : (db.filter (fun p =>
          E.instBroken db (correctiveRemark db reqI m1) p.name)).length ≠ 0
       then
        (if brokenDiag E db (correctiveRemark db reqI m1) ≠ [] then
          (.error ⟨eDependencyBroken,
            .brokenPackages (brokenDiag E db (correctiveRemark db reqI m1))⟩,
           correctiveRemark db reqI m1)
        else
          (.error ⟨eDependencyBroken, .impossibleSituation⟩,
           correctiveRemark db reqI m1))
       else if (if ok then pend else false) then
        (.error ⟨eDependencyBroken, .pendingAptErrors⟩,
         correctiveRemark db reqI m1)
       else (.ok (), correctiveRemark db reqI m1)) := by
    simp only [finalize_dependency_resolution, hres]
    split <;> split <;> rfl
  refine ⟨?_, ?_, ?_, ?_, ?_⟩
  · rw [hred]
    split <;>
      first
        | rfl
        | (split <;>
            first
              | rfl
              | (split <;> rfl))
  · intro n hn p hfind
    have hm := correctiveRemark_mem db reqI m1 n p hnd hn hfind
    constructor
    · intro h1 h2
      rw [hm, if_pos (by rw [h1, h2]; rfl)]
    · intro h12
      rw [hm, if_neg ?_]
      intro hc
      rw [Bool.and_eq_true, Bool.not_eq_true'] at hc
      rcases h12 with h1 | h2
      · rw [h1] at hc
        exact Bool.noConfusion hc.1
      · rcases hp : p.current with _ | c
        · exact h2 hp
        · rw [hp] at hc
          exact Bool.noConfusion hc.2
  · intro hok hbr
    rw [hred]
    rw [dif_neg (by rw [hbr]; omega : ¬(db.filter (fun p =>
      E.instBroken db (correctiveRemark db reqI m1) p.name)).length ≠ 0)]
    rw [hok]
    rfl
  · rw [hred]
    by_cases hbr : (db.filter (fun p =>
        E.instBroken db (correctiveRemark db reqI m1) p.name)).length ≠ 0
    · rw [dif_pos hbr]
      constructor
      · intro
        exact Or.inl hbr
      · intro
        split
        · exact ⟨_, rfl⟩
        · exact ⟨_, rfl⟩
    · rw [dif_neg hbr]
      constructor
      · intro he
        cases hok : ok
        · rw [hok] at he
          obtain ⟨e, he⟩ := he
          simp at he
        · cases hpend : pend
          · rw [hok, hpend] at he
            obtain ⟨e, he⟩ := he
            simp at he
          · exact Or.inr ⟨rfl, rfl⟩
      · rintro (h | ⟨hok, hpend⟩)
        · exact absurd h hbr
        · rw [hok, hpend]
          exact ⟨_, rfl⟩
  · intro e he
    rw [hred] at he
    by_cases hbr : (db.filter (fun p =>
        E.instBroken db (correctiveRemark db reqI m1) p.name)).length ≠ 0
    · rw [dif_pos hbr] at he
      rw [if_pos (brokenDiag_ne_nil E db (correctiveRemark db reqI m1) hbr)]
        at he
      injection he with he
      rw [← he]
      exact ⟨rfl, fun _ => rfl⟩
    · rw [dif_neg hbr] at he
      cases hok : ok with
      | false =>
        rw [hok] at he
        have he2 : (Except.ok () : Except AptError Unit) = .error e := he
        cases he2
      | true =>
        cases hpend : pend with
        | false =>
          rw [hok, hpend] at he
          have he2 : (Except.ok () : Except AptError Unit) = .error e := he
          cases he2
        | true =>
          rw [hok, hpend] at he
          have he2 : (Except.error
              ⟨eDependencyBroken, Msg.pendingAptErrors⟩ :
              Except AptError Unit) = .error e := he
          injection he2 with he2
          rw [← he2]
          exact ⟨rfl, fun hh => absurd hh hbr⟩

/-- Concrete instance of claim C4's theorem: a resolver leaving pending
errors makes the finalizer fail although nothing is broken, and the
returned mark state is the corrective pass over its output. -/
theorem claim_C4_finalize_resolution_witness :
    (finalize_dependency_resolution extPend [] [] [] false []).2 =
      correctiveRemark [] [] [] ∧
    (∃ e, (finalize_dependency_resolution extPend [] [] [] false []).1 =
      .error e) := by
  have h := claim_C4_finalize_resolution extPend [] [] [] false [] [] true
    true (by simp) rfl
  exact ⟨h.1, h.2.2.2.1.mpr (Or.inr ⟨rfl, rfl⟩)⟩

end Apm
